import Mathlib

/-!
Verification of the SimpleFS core: a shallow embedding of the disk
emulator (src/unnamed/part_001, `disk.c`) and of the filesystem engine
(src/src/library/fs.c), together with theorems settling the
specification's claims against the code.

Modelling conventions:
* A `Block` is the C buffer `char data[BLOCK_SIZE]`, modelled as a
  function from byte offset to byte value; only offsets `< BLOCK_SIZE`
  are meaningful.  The views of the C `union Block` (superblock, inode
  array, 32-bit pointer array) are modelled by the codec functions
  `readLE32`, `writeLE32`, `getSuper`, `putSuper`, `getInode`,
  `setInode`, which reinterpret the same bytes with a fixed byte order
  (the source is native-endian; a little-endian host is assumed,
  matching the spec's non-portability posture).
* 32-bit machine values are `Nat`, with an explicit `% U32` exactly at
  the places where the C code can truncate or wrap.
* Memory obtained from `malloc` has indeterminate contents in C.  Where
  the code reads such memory before initializing it (the bitmap of
  `init_bit_map`, the array of `direct_pointer`, `empty_block_data` of
  `fs_format`), the model takes the indeterminate contents as an
  explicit argument (named `...Junk`).  Stack or heap buffers that are
  only observed after a successful `disk_read` overwrote them are
  modelled by `undefBlock`; no claim depends on their initial contents.
* Failure sentinels (`-1` results) are modelled by `Option` results or
  by `Int` return values, mirroring each C signature.
* Pointer identity checks (`fs->disk == disk`) are modelled by an
  explicit `sameDisk : Bool` argument, following the spec's ownership
  reading of that comparison.
* `pread`/`pwrite` on the backing file are modelled as always
  succeeding once `disk_sanity_check` passes; the null-pointer parts of
  the sanity check are vacuous in the model because buffers and disks
  always exist as values.
-/

set_option maxRecDepth 100000

namespace SimpleFS

/-! ## Constants (sfs/fs.h, sfs/disk.h; values fixed by the spec) -/

def BLOCK_SIZE : Nat := 4096

def INODES_PER_BLOCK : Nat := 128

def POINTERS_PER_INODE : Nat := 5

def POINTERS_PER_BLOCK : Nat := 1024

/-- Modelled from the spec: `MAGIC_NUMBER` lives in the repository
header `include/sfs/fs.h`, which is not among the provided sources.
The spec fixes it only as "a fixed 32-bit sentinel identifying a
SimpleFS volume"; the concrete value is immaterial to every claim. -/
def MAGIC_NUMBER : Nat := 0xf0f03410

/-- One more than the largest `uint32_t` value: the modulus of 32-bit
machine arithmetic. -/
def U32 : Nat := 4294967296

/-! ## Blocks and the four views of the C `union Block` -/

/-- A 4096-byte buffer, as a function from byte offset to byte value. -/
def Block : Type := Nat → Nat

/-- The all-zero block. -/
def zeroBlock : Block := fun _ => 0

/-- Placeholder contents for buffers whose initial bytes the C code
leaves indeterminate but which every claim only observes after a
successful `disk_read` has overwritten them. -/
def undefBlock : Block := fun _ => 0

/-- Decode the 32-bit little-endian value at byte offset `off`. -/
def readLE32 (b : Block) (off : Nat) : Nat :=
  b off % 256 + 256 * (b (off + 1) % 256) + 65536 * (b (off + 2) % 256) +
    16777216 * (b (off + 3) % 256)

/-- Encode `v` (reduced modulo `U32`) at byte offset `off`. -/
def writeLE32 (b : Block) (off v : Nat) : Block := fun i =>
  if i = off then v % 256
  else if i = off + 1 then v / 256 % 256
  else if i = off + 2 then v / 65536 % 256
  else if i = off + 3 then v / 16777216 % 256
  else b i

/-- The superblock record: four consecutive `uint32_t` fields. -/
structure SuperBlock where
  magic_number : Nat
  blocks : Nat
  inode_blocks : Nat
  inodes : Nat

/-- View a block's first 16 bytes as a superblock (`block.super`). -/
def getSuper (b : Block) : SuperBlock :=
  { magic_number := readLE32 b 0
    blocks := readLE32 b 4
    inode_blocks := readLE32 b 8
    inodes := readLE32 b 12 }

/-- Store a superblock into a block's first 16 bytes. -/
def putSuper (b : Block) (s : SuperBlock) : Block :=
  writeLE32 (writeLE32 (writeLE32 (writeLE32 b 0 s.magic_number) 4 s.blocks)
    8 s.inode_blocks) 12 s.inodes

/-- One 32-byte inode: `valid`, `size`, `direct[POINTERS_PER_INODE]`,
`indirect`.  The `direct` field is a function; only arguments `< 5` are
meaningful, matching the C array `uint32_t direct[5]`. -/
structure Inode where
  valid : Nat
  size : Nat
  direct : Nat → Nat
  indirect : Nat

/-- View slot `j` of a block as an inode (`block.inodes[j]`). -/
def getInode (b : Block) (j : Nat) : Inode :=
  { valid := readLE32 b (32 * j)
    size := readLE32 b (32 * j + 4)
    direct := fun k => readLE32 b (32 * j + 8 + 4 * k)
    indirect := readLE32 b (32 * j + 28) }

/-- Store an inode into slot `j` of a block (`block.inodes[j] = ino`). -/
def setInode (b : Block) (j : Nat) (ino : Inode) : Block :=
  writeLE32 (writeLE32 (writeLE32 (writeLE32 (writeLE32 (writeLE32 (writeLE32
    (writeLE32 b (32 * j) ino.valid) (32 * j + 4) ino.size)
    (32 * j + 8) (ino.direct 0)) (32 * j + 12) (ino.direct 1))
    (32 * j + 16) (ino.direct 2)) (32 * j + 20) (ino.direct 3))
    (32 * j + 24) (ino.direct 4)) (32 * j + 28) ino.indirect

/-! ## Disk emulator (disk.c) -/

/-- The `Disk` structure.  `fdOpen` models `fd != -1`; `content` is the
backing file viewed as an array of blocks. -/
structure Disk where
  blocks : Nat
  fdOpen : Bool
  content : Nat → Block
  reads : Nat
  writes : Nat

def DISK_FAILURE : Int := -1

/-- Sanity check of `disk.c`.  The null-pointer checks on the disk and
the data buffer are vacuously true in the model. -/
def disk_sanity_check (d : Disk) (block : Nat) : Bool :=
  d.fdOpen && decide (block < d.blocks)

/-- Translation of `disk_read`.  On a passed sanity check the `pread`
is modelled as succeeding, the read counter is incremented and the
block contents replace the buffer; note the source returns `0` (not
`BLOCK_SIZE`) on success.  On a failed check the buffer is returned
unchanged. -/
def disk_read (d : Disk) (block : Nat) (buf : Block) : Int × Disk × Block :=
  if disk_sanity_check d block then
    (0, { d with reads := d.reads + 1 }, d.content block)
  else (DISK_FAILURE, d, buf)

/-- Translation of `disk_write`: returns `BLOCK_SIZE` on success and
increments the write counter. -/
def disk_write (d : Disk) (block : Nat) (data : Block) : Int × Disk :=
  if disk_sanity_check d block then
    ((BLOCK_SIZE : Int),
     { d with content := fun i => if i = block then data else d.content i
              writes := d.writes + 1 })
  else (DISK_FAILURE, d)

/-! ## FileSystem state (sfs/fs.h) -/

/-- The in-memory `FileSystem` for a mounted filesystem: the owned
disk, the copied superblock and the free-block bitmap.  The bitmap is
a function; only indices `< meta_data.blocks` are meaningful. -/
structure FileSystem where
  disk : Disk
  meta_data : SuperBlock
  free_blocks : Nat → Bool

/-- Point update of a bitmap. -/
def setMap (m : Nat → Bool) (i : Nat) (v : Bool) : Nat → Bool :=
  fun k => if k = i then v else m k

/-- Translation of `is_valid_Inode`: `inode->valid == 1`. -/
def is_valid_Inode (ino : Inode) : Bool := ino.valid == 1

/-- The ascending list `[s, s+1, ..., s+n-1]`, used to model the C
counting loops. -/
def rangeFrom : Nat → Nat → List Nat
  | _, 0 => []
  | s, n + 1 => s :: rangeFrom (s + 1) n

/-- Read block `blockIdx` of the filesystem's disk into a fresh stack
buffer, keeping the updated counters.  All engine functions call
`disk_read` through this shape. -/
def fsDiskRead (fs : FileSystem) (blockIdx : Nat) : Int × FileSystem × Block :=
  let t := disk_read fs.disk blockIdx undefBlock
  (t.1, { fs with disk := t.2.1 }, t.2.2)

/-- Write a block through the filesystem's disk. -/
def fsDiskWrite (fs : FileSystem) (blockIdx : Nat) (b : Block) : Int × FileSystem :=
  let t := disk_write fs.disk blockIdx b
  (t.1, { fs with disk := t.2 })

/-- The inode stored at inode number `n` on the filesystem's disk
(block `1 + n / INODES_PER_BLOCK`, slot `n % INODES_PER_BLOCK`).  Used
to state claims. -/
def tableInode (fs : FileSystem) (n : Nat) : Inode :=
  getInode (fs.disk.content (n / INODES_PER_BLOCK + 1)) (n % INODES_PER_BLOCK)

/-! ## Free-block bitmap construction (fs.c lines 482-568) -/

/-- Translation of `direct_pointer`: allocates a five-entry array and
copies only the nonzero direct pointers into it; entries whose direct
pointer is zero keep the indeterminate malloc contents, modelled by
`dirJunk`. -/
def direct_pointer (ino : Inode) (dirJunk : Nat → Nat) : Nat → Nat :=
  fun i => if ino.direct i ≠ 0 then ino.direct i else dirJunk i

/-- Translation of `indirect_pointer`: `none` when `indirect == 0`,
otherwise the indirect block read from disk (threading the read
counter).  If the read fails the C code returns the malloc'd block
uninitialized; the claims never observe that path, so `undefBlock`
stands for it via `disk_read`'s unchanged-buffer convention. -/
def indirect_pointer (d : Disk) (ino : Inode) : Option Block × Disk :=
  if ino.indirect = 0 then (none, d)
  else
    let t := disk_read d ino.indirect undefBlock
    (some t.2.2, t.2.1)

/-- Mark `block_map[get i] = 1` for every `i` in the list with
`get i != 0`; the loop shape shared by the direct and indirect marking
loops of `free_block_of_inode`. -/
def markNonzero (m : Nat → Bool) (get : Nat → Nat) : List Nat → (Nat → Bool)
  | [] => m
  | i :: rest =>
      if get i ≠ 0 then markNonzero (setMap m (get i) true) get rest
      else markNonzero m get rest

/-- Translation of `free_block_of_inode`: despite its name it marks
the blocks of one valid inode busy in `block_map`, reading the indirect
block from disk when present. -/
def free_block_of_inode (d : Disk) (ino : Inode) (m : Nat → Bool)
    (dirJunk : Nat → Nat) : Disk × (Nat → Bool) :=
  let dir_p := direct_pointer ino dirJunk
  let t := indirect_pointer d ino
  let m := markNonzero m dir_p (rangeFrom 0 POINTERS_PER_INODE)
  match t.1 with
  | none => (t.2, m)
  | some pb =>
      let m := markNonzero m (fun i => readLE32 pb (4 * i)) (rangeFrom 0 POINTERS_PER_BLOCK)
      (t.2, setMap m ino.indirect true)

/-- Inner loop of `busy_block_of_disk` over the 128 inode slots of one
inode-table block. -/
def busyInodeLoop (d : Disk) (blk : Block) (dirJunk : Nat → Nat) (m : Nat → Bool) :
    List Nat → Disk × (Nat → Bool)
  | [] => (d, m)
  | j :: rest =>
      if is_valid_Inode (getInode blk j) then
        let t := free_block_of_inode d (getInode blk j) m dirJunk
        busyInodeLoop t.1 blk dirJunk t.2 rest
      else busyInodeLoop d blk dirJunk m rest

/-- Outer loop of `busy_block_of_disk` over the inode-table blocks
`1..=inode_blocks`; a failed `disk_read` aborts with `false`. -/
def busyBlockLoop (d : Disk) (dirJunk : Nat → Nat) (m : Nat → Bool) :
    List Nat → Bool × Disk × (Nat → Bool)
  | [] => (true, d, m)
  | i :: rest =>
      let t := disk_read d i undefBlock
      if t.1 = DISK_FAILURE then (false, t.2.1, m)
      else
        let u := busyInodeLoop t.2.1 t.2.2 dirJunk m (rangeFrom 0 INODES_PER_BLOCK)
        busyBlockLoop u.1 dirJunk u.2 rest

/-- Translation of `busy_block_of_disk`: sets `block_map[0]`, then
walks the inode table marking the blocks of every valid inode. -/
def busy_block_of_disk (fs : FileSystem) (dirJunk : Nat → Nat) (m : Nat → Bool) :
    Bool × Disk × (Nat → Bool) :=
  busyBlockLoop fs.disk dirJunk (setMap m 0 true) (rangeFrom 1 fs.meta_data.inode_blocks)

/-- Set every index in the list to `true`; the trailing
`free_blocks[1..=inode_blocks] = 1` loop of `init_bit_map`. -/
def setTrueList (m : Nat → Bool) : List Nat → (Nat → Bool)
  | [] => m
  | i :: rest => setTrueList (setMap m i true) rest

/-- Translation of `init_bit_map`.  The C code obtains the bitmap from
`malloc` and never clears it, so the array starts with indeterminate
contents `mapJunk`; `busy_block_of_disk` then only ever sets entries to
`1`.  On a read failure `fs->free_blocks` keeps the partially marked
malloc'd array and the function returns `false`. -/
def init_bit_map (fs : FileSystem) (mapJunk : Nat → Bool) (dirJunk : Nat → Nat) :
    Bool × FileSystem :=
  let t := busy_block_of_disk fs dirJunk mapJunk
  if t.1 then
    let m := setTrueList t.2.2 (rangeFrom 1 fs.meta_data.inode_blocks)
    (true, { fs with disk := t.2.1, free_blocks := m })
  else (false, { fs with disk := t.2.1, free_blocks := t.2.2 })

/-! ## Block allocation (fs.c lines 570-596) -/

/-- Linear scan for the first index whose bitmap entry is `false`. -/
def findFreeIdx (m : Nat → Bool) : List Nat → Option Nat
  | [] => none
  | i :: rest => if m i = false then some i else findFreeIdx m rest

/-- Translation of `assign_block`: first free index is marked busy and
the corresponding disk block is zero-filled (the C code zeroes all
1024 pointer slots of a stack block, i.e. all 4096 bytes); the result
of that `disk_write` is ignored by the source.  `none` models the
`(uint32_t)-1` exhaustion sentinel. -/
def assign_block (fs : FileSystem) : Option Nat × FileSystem :=
  match findFreeIdx fs.free_blocks (rangeFrom 0 fs.meta_data.blocks) with
  | some i =>
      let t := disk_write fs.disk i zeroBlock
      (some i, { fs with disk := t.2, free_blocks := setMap fs.free_blocks i true })
  | none => (none, fs)

/-- Translation of `unassign_block`: clears the bitmap entry if set;
the source then unconditionally logs and returns `-1`. -/
def unassign_block (fs : FileSystem) (bid : Nat) : Int × FileSystem :=
  (-1,
   { fs with free_blocks :=
       if fs.free_blocks bid then setMap fs.free_blocks bid false else fs.free_blocks })

/-! ## format and mount (fs.c lines 102-195) -/

/-- The value of `(uint32_t)ceil(blocks / 10.0)`.  For every block
count below `2^49` the IEEE-double division by `10.0` is within
`2^-4` of the exact quotient, whose distance to the nearest integer is
either `0` or at least `1/10`, so the floating-point `ceil` agrees
with the exact ceiling; the cast truncates to 32 bits. -/
def ceilDiv10 (n : Nat) : Nat := (n + 9) / 10 % U32

/-- Clearing loop of `fs_format`: writes the (uninitialized) malloc'd
buffer to every listed block, aborting on a write failure. -/
def formatClearLoop (d : Disk) (junk : Block) : List Nat → Bool × Disk
  | [] => (true, d)
  | i :: rest =>
      let t := disk_write d i junk
      if t.1 = DISK_FAILURE then (false, t.2)
      else formatClearLoop t.2 junk rest

/-- Translation of `fs_format`.  `sameDisk` models the
`fs->disk == disk` mounted-check; `stackJunk` is the indeterminate
stack `Block` whose first 16 bytes the superblock fields overwrite;
`emptyJunk` is the indeterminate contents of the malloc'd
`empty_block_data` buffer, which the C code writes to every block in
`[1, blocks)` without ever clearing it.  The `inodes` field is the
32-bit evaluation of `inode_blocks * BLOCK_SIZE / 32`. -/
def fs_format (d : Disk) (sameDisk : Bool) (stackJunk emptyJunk : Block) :
    Bool × Disk :=
  if sameDisk then (false, d)
  else
    let sb : SuperBlock :=
      { magic_number := MAGIC_NUMBER
        blocks := d.blocks % U32
        inode_blocks := ceilDiv10 d.blocks
        inodes := ceilDiv10 d.blocks * BLOCK_SIZE % U32 / 32 }
    let t := disk_write d 0 (putSuper stackJunk sb)
    if t.1 = DISK_FAILURE then (false, t.2)
    else formatClearLoop t.2 emptyJunk (rangeFrom 1 (sb.blocks - 1))

/-- Translation of `fs_mount`: validates the superblock in source
order, then records the metadata and builds the bitmap; `none` models
every `false` return (including the bitmap-failure path that clears
`fs->disk`).  `mapJunk` and `dirJunk` are `init_bit_map`'s
indeterminate malloc contents. -/
def fs_mount (d : Disk) (sameDisk : Bool) (mapJunk : Nat → Bool)
    (dirJunk : Nat → Nat) : Option FileSystem :=
  if sameDisk then none
  else
    let t := disk_read d 0 undefBlock
    if t.1 = DISK_FAILURE then none
    else
      let sb := getSuper t.2.2
      if sb.magic_number ≠ MAGIC_NUMBER then none
      else if sb.blocks ≠ t.2.1.blocks then none
      else if sb.inode_blocks ≠ ceilDiv10 t.2.1.blocks then none
      else if sb.inodes ≠ sb.inode_blocks * INODES_PER_BLOCK % U32 then none
      else
        let fs : FileSystem := { disk := t.2.1, meta_data := sb, free_blocks := mapJunk }
        let u := init_bit_map fs mapJunk dirJunk
        if u.1 then some u.2 else none

/-! ## create and remove (fs.c lines 224-315) -/

/-- Inner slot scan of `fs_create`: the first slot whose inode fails
`is_valid_Inode`. -/
def slotScan (blk : Block) : List Nat → Option Nat
  | [] => none
  | j :: rest => if is_valid_Inode (getInode blk j) then slotScan blk rest else some j

/-- The freshly created inode: `valid = 1`, all five direct pointers
and `indirect` zeroed, `size = 0`. -/
def newInode : Inode :=
  { valid := 1, size := 0, direct := fun _ => 0, indirect := 0 }

/-- Outer block loop of `fs_create` over the inode-table blocks.  On a
hit the slot is initialized, the block written back, the bitmap rebuilt
and the inode number `j + (i - 1) * INODES_PER_BLOCK` returned. -/
def createLoop (fs : FileSystem) (mapJunk : Nat → Bool) (dirJunk : Nat → Nat) :
    List Nat → Option Nat × FileSystem
  | [] => (none, fs)
  | i :: rest =>
      let t := fsDiskRead fs i
      match slotScan t.2.2 (rangeFrom 0 INODES_PER_BLOCK) with
      | some j =>
          let u := fsDiskWrite t.2.1 i (setInode t.2.2 j newInode)
          let v := init_bit_map u.2 mapJunk dirJunk
          (some (j + (i - 1) * INODES_PER_BLOCK), v.2)
      | none => createLoop t.2.1 mapJunk dirJunk rest

/-- Translation of `fs_create`; `none` models the `-1` table-full
return. -/
def fs_create (fs : FileSystem) (mapJunk : Nat → Bool) (dirJunk : Nat → Nat) :
    Option Nat × FileSystem :=
  createLoop fs mapJunk dirJunk (rangeFrom 1 fs.meta_data.inode_blocks)

/-- Direct-pointer release loop of `fs_remove`. -/
def removeDirLoop (m : Nat → Bool) (ino : Inode) : List Nat → (Nat → Bool)
  | [] => m
  | k :: rest =>
      if ino.direct k ≠ 0 then removeDirLoop (setMap m (ino.direct k) false) ino rest
      else removeDirLoop m ino rest

/-- Indirect-pointer release loop of `fs_remove`: stops at the first
zero entry. -/
def removeIndirLoop (m : Nat → Bool) (pb : Block) : List Nat → (Nat → Bool)
  | [] => m
  | i :: rest =>
      if readLE32 pb (4 * i) ≠ 0 then
        removeIndirLoop (setMap m (readLE32 pb (4 * i)) false) pb rest
      else m

/-- Translation of `fs_remove`: loads the inode, fails on an invalid
one, otherwise clears the bitmap entries of its blocks and writes the
inode back with `valid = 0`. -/
def fs_remove (fs : FileSystem) (inode_number : Nat) : Bool × FileSystem :=
  let t := fsDiskRead fs (inode_number / INODES_PER_BLOCK + 1)
  let ino := getInode t.2.2 (inode_number % INODES_PER_BLOCK)
  if is_valid_Inode ino = false then (false, t.2.1)
  else
    let fs1 := { t.2.1 with
      free_blocks := removeDirLoop t.2.1.free_blocks ino (rangeFrom 0 POINTERS_PER_INODE) }
    let fs2 :=
      if ino.indirect ≠ 0 then
        let fs' := { fs1 with free_blocks := setMap fs1.free_blocks ino.indirect false }
        let u := fsDiskRead fs' ino.indirect
        { u.2.1 with
          free_blocks := removeIndirLoop u.2.1.free_blocks u.2.2 (rangeFrom 0 POINTERS_PER_BLOCK) }
      else fs1
    let v := fsDiskWrite fs2 (inode_number / INODES_PER_BLOCK + 1)
      (setInode t.2.2 (inode_number % INODES_PER_BLOCK) { ino with valid := 0 })
    (true, v.2)

/-! ## read and write (fs.c lines 351-468) -/

/-- Translation of `fs_read`.  `data` is the caller's destination
buffer; the result carries the return value, the threaded filesystem
and the updated buffer.  The C `int pt_idx` cannot truncate because
`offset < size < U32` holds on every path that uses it. -/
def fs_read (fs : FileSystem) (inode_number : Nat) (data : Block)
    (length offset : Nat) : Int × FileSystem × Block :=
  let t := fsDiskRead fs (inode_number / INODES_PER_BLOCK + 1)
  let ino := getInode t.2.2 (inode_number % INODES_PER_BLOCK)
  let size := ino.size
  if is_valid_Inode ino = false then (-1, t.2.1, data)
  else if offset ≥ size then (-1, t.2.1, data)
  else
    let pt_idx := offset / BLOCK_SIZE
    let u :=
      if pt_idx < POINTERS_PER_INODE then (t.2.1, ino.direct pt_idx)
      else
        let indir_idx := (pt_idx - POINTERS_PER_INODE) % POINTERS_PER_BLOCK
        let r := fsDiskRead t.2.1 ino.indirect
        (r.2.1, readLE32 r.2.2 (4 * indir_idx))
    let v := fsDiskRead u.1 u.2
    let n := min (size - offset) BLOCK_SIZE
    (if offset + length ≤ size then (length : Int) else ((size - offset : Nat) : Int),
     v.2.1, fun i => if i < n then v.2.2 i else data i)

/-- Scan of an indirect pointer block for the first zero-valued slot. -/
def findZeroSlot (pb : Block) : List Nat → Option Nat
  | [] => none
  | i :: rest => if readLE32 pb (4 * i) = 0 then some i else findZeroSlot pb rest

/-- Tail of `fs_write` once the data block goes through the indirect
block `ipb` (`ino` already carries `indirect = ipb`): reads the pointer
block, installs `bk_idx` in its first zero slot — returning `-1`
without any rollback when every slot is taken — then writes the pointer
block and the updated inode back. -/
def writeViaIndirect (fs : FileSystem) (blk : Block) (ino : Inode)
    (inode_number length bk_idx ipb : Nat) : Int × FileSystem :=
  let t := fsDiskRead fs ipb
  match findZeroSlot t.2.2 (rangeFrom 0 POINTERS_PER_BLOCK) with
  | none => (-1, t.2.1)
  | some s =>
      let u := fsDiskWrite t.2.1 ipb (writeLE32 t.2.2 (4 * s) bk_idx)
      let ino := { ino with size := (ino.size + length) % U32 }
      let v := fsDiskWrite u.2 (inode_number / INODES_PER_BLOCK + 1)
        (setInode blk (inode_number % INODES_PER_BLOCK) ino)
      ((length : Int), v.2)

/-- Translation of `fs_write`.  `uint32_t pt_idx = offset / BLOCK_SIZE`
truncates the 64-bit quotient to 32 bits, hence the `% U32`.  The data
block is written straight from the caller's buffer `data` for all
`BLOCK_SIZE` bytes (the C code also copies `length` bytes of it into a
malloc'd buffer that it frees unused).  `inode.size += length` wraps at
32 bits. -/
def fs_write (fs : FileSystem) (inode_number : Nat) (data : Block)
    (length offset : Nat) : Int × FileSystem :=
  let t := fsDiskRead fs (inode_number / INODES_PER_BLOCK + 1)
  let blk := t.2.2
  let ino := getInode blk (inode_number % INODES_PER_BLOCK)
  if is_valid_Inode ino = false then (-1, t.2.1)
  else
    let pt_idx := offset / BLOCK_SIZE % U32
    if pt_idx ≥ POINTERS_PER_INODE + POINTERS_PER_BLOCK then (-1, t.2.1)
    else
      match assign_block t.2.1 with
      | (none, fs1) => (-1, fs1)
      | (some bk_idx, fs1) =>
          let w := fsDiskWrite fs1 bk_idx data
          if pt_idx < POINTERS_PER_INODE then
            let ino := { ino with
              direct := fun k => if k = pt_idx then bk_idx else ino.direct k }
            let ino := { ino with size := (ino.size + length) % U32 }
            let v := fsDiskWrite w.2 (inode_number / INODES_PER_BLOCK + 1)
              (setInode blk (inode_number % INODES_PER_BLOCK) ino)
            ((length : Int), v.2)
          else
            if ino.indirect = 0 then
              match assign_block w.2 with
              | (none, fs2) =>
                  let u := unassign_block fs2 bk_idx
                  (-1, u.2)
              | (some indir_pt_bk_idx, fs2) =>
                  writeViaIndirect fs2 blk { ino with indirect := indir_pt_bk_idx }
                    inode_number length bk_idx indir_pt_bk_idx
            else
              writeViaIndirect w.2 blk ino inode_number length bk_idx ino.indirect

/-! ## Codec lemmas -/

theorem setMap_apply_same (m : Nat → Bool) (i : Nat) (v : Bool) : setMap m i v i = v := by
  simp [setMap]

theorem setMap_apply_of_ne (m : Nat → Bool) (i : Nat) (v : Bool) (k : Nat) (h : k ≠ i) :
    setMap m i v k = m k := by
  simp [setMap, h]

theorem writeLE32_apply_outside (b : Block) (off v i : Nat) (h1 : i ≠ off)
    (h2 : i ≠ off + 1) (h3 : i ≠ off + 2) (h4 : i ≠ off + 3) :
    writeLE32 b off v i = b i := by
  unfold writeLE32
  rw [if_neg h1, if_neg h2, if_neg h3, if_neg h4]

theorem readLE32_writeLE32_of_eq (b : Block) (off v off' : Nat) (h : off' = off) :
    readLE32 (writeLE32 b off v) off' = v % U32 := by
  subst h
  have h1 : off' + 1 ≠ off' := by omega
  have h2 : off' + 2 ≠ off' := by omega
  have h3 : off' + 2 ≠ off' + 1 := by omega
  have h4 : off' + 3 ≠ off' := by omega
  have h5 : off' + 3 ≠ off' + 1 := by omega
  have h6 : off' + 3 ≠ off' + 2 := by omega
  simp only [readLE32, writeLE32, U32, h1, h2, h3, h4, h5, h6, eq_self_iff_true,
    ite_true, ite_false]
  omega

theorem readLE32_writeLE32_of_disjoint (b : Block) (off v off' : Nat)
    (h : off' + 4 ≤ off ∨ off + 4 ≤ off') :
    readLE32 (writeLE32 b off v) off' = readLE32 b off' := by
  unfold readLE32
  rw [writeLE32_apply_outside b off v off' (by omega) (by omega) (by omega) (by omega),
    writeLE32_apply_outside b off v (off' + 1) (by omega) (by omega) (by omega) (by omega),
    writeLE32_apply_outside b off v (off' + 2) (by omega) (by omega) (by omega) (by omega),
    writeLE32_apply_outside b off v (off' + 3) (by omega) (by omega) (by omega) (by omega)]

theorem getInode_setInode_valid (b : Block) (j : Nat) (ino : Inode) :
    (getInode (setInode b j ino) j).valid = ino.valid % U32 := by
  simp (disch := omega) only [getInode, setInode, readLE32_writeLE32_of_disjoint,
    readLE32_writeLE32_of_eq]

theorem getInode_setInode_size (b : Block) (j : Nat) (ino : Inode) :
    (getInode (setInode b j ino) j).size = ino.size % U32 := by
  simp (disch := omega) only [getInode, setInode, readLE32_writeLE32_of_disjoint,
    readLE32_writeLE32_of_eq]

theorem getInode_setInode_indirect (b : Block) (j : Nat) (ino : Inode) :
    (getInode (setInode b j ino) j).indirect = ino.indirect % U32 := by
  simp (disch := omega) only [getInode, setInode, readLE32_writeLE32_of_disjoint,
    readLE32_writeLE32_of_eq]

theorem getInode_setInode_direct (b : Block) (j : Nat) (ino : Inode) (k : Nat)
    (hk : k < POINTERS_PER_INODE) :
    (getInode (setInode b j ino) j).direct k = ino.direct k % U32 := by
  unfold POINTERS_PER_INODE at hk
  match k, hk with
  | 0, _ =>
    simp (disch := omega) only [getInode, setInode, readLE32_writeLE32_of_disjoint,
      readLE32_writeLE32_of_eq]
  | 1, _ =>
    simp (disch := omega) only [getInode, setInode, readLE32_writeLE32_of_disjoint,
      readLE32_writeLE32_of_eq]
  | 2, _ =>
    simp (disch := omega) only [getInode, setInode, readLE32_writeLE32_of_disjoint,
      readLE32_writeLE32_of_eq]
  | 3, _ =>
    simp (disch := omega) only [getInode, setInode, readLE32_writeLE32_of_disjoint,
      readLE32_writeLE32_of_eq]
  | 4, _ =>
    simp (disch := omega) only [getInode, setInode, readLE32_writeLE32_of_disjoint,
      readLE32_writeLE32_of_eq]

/-! ## Disk-operation lemmas -/

theorem disk_read_pass (d : Disk) (block : Nat) (buf : Block)
    (hfd : d.fdOpen = true) (hb : block < d.blocks) :
    disk_read d block buf = (0, { d with reads := d.reads + 1 }, d.content block) := by
  unfold disk_read disk_sanity_check
  rw [hfd]
  simp [hb]

theorem disk_write_pass (d : Disk) (block : Nat) (data : Block)
    (hfd : d.fdOpen = true) (hb : block < d.blocks) :
    disk_write d block data =
      ((BLOCK_SIZE : Int),
       { d with content := fun i => if i = block then data else d.content i
                writes := d.writes + 1 }) := by
  unfold disk_write disk_sanity_check
  rw [hfd]
  simp [hb]

/-! ## Range and scan lemmas -/

theorem rangeFrom_zero (s : Nat) : rangeFrom s 0 = [] := rfl

theorem rangeFrom_succ (s n : Nat) : rangeFrom s (n + 1) = s :: rangeFrom (s + 1) n := rfl

theorem mem_rangeFrom : ∀ (n s i : Nat), i ∈ rangeFrom s n ↔ s ≤ i ∧ i < s + n := by
  intro n
  induction n with
  | zero => intro s i; rw [rangeFrom_zero]; simp
  | succ m ih =>
    intro s i
    rw [rangeFrom_succ]
    simp only [List.mem_cons, ih (s + 1) i]
    omega

theorem findFreeIdx_eq_some (m : Nat → Bool) :
    ∀ (l : List Nat) (i : Nat), findFreeIdx m l = some i → i ∈ l ∧ m i = false := by
  intro l
  induction l with
  | nil => intro i h; simp [findFreeIdx] at h
  | cons a rest ih =>
    intro i h
    unfold findFreeIdx at h
    by_cases hm : m a = false
    · rw [if_pos hm] at h
      cases h
      exact ⟨List.mem_cons_self a rest, hm⟩
    · rw [if_neg hm] at h
      rcases ih i h with ⟨hmem, hfree⟩
      exact ⟨List.mem_cons_of_mem a hmem, hfree⟩

/-! ## Read-only evolution of the disk

The bitmap construction only ever reads the disk: its `content`,
`blocks`, `fdOpen` and `writes` fields are untouched; only the read
counter moves. -/

def ReadOnlyEvolved (d d' : Disk) : Prop :=
  d'.blocks = d.blocks ∧ d'.fdOpen = d.fdOpen ∧ d'.content = d.content ∧
    d'.writes = d.writes

theorem readOnlyEvolved_refl (d : Disk) : ReadOnlyEvolved d d :=
  ⟨rfl, rfl, rfl, rfl⟩

theorem readOnlyEvolved_trans (d1 d2 d3 : Disk) (h1 : ReadOnlyEvolved d1 d2)
    (h2 : ReadOnlyEvolved d2 d3) : ReadOnlyEvolved d1 d3 := by
  obtain ⟨a1, b1, c1, e1⟩ := h1
  obtain ⟨a2, b2, c2, e2⟩ := h2
  exact ⟨a2.trans a1, b2.trans b1, c2.trans c1, e2.trans e1⟩

theorem disk_read_readOnly (d : Disk) (block : Nat) (buf : Block) :
    ReadOnlyEvolved d (disk_read d block buf).2.1 := by
  unfold disk_read
  split
  · exact ⟨rfl, rfl, rfl, rfl⟩
  · exact readOnlyEvolved_refl d

theorem indirect_pointer_readOnly (d : Disk) (ino : Inode) :
    ReadOnlyEvolved d (indirect_pointer d ino).2 := by
  unfold indirect_pointer
  split
  · exact readOnlyEvolved_refl d
  · exact disk_read_readOnly d ino.indirect undefBlock

theorem free_block_of_inode_readOnly (d : Disk) (ino : Inode) (m : Nat → Bool)
    (dirJunk : Nat → Nat) :
    ReadOnlyEvolved d (free_block_of_inode d ino m dirJunk).1 := by
  unfold free_block_of_inode
  have h := indirect_pointer_readOnly d ino
  rcases hip : (indirect_pointer d ino).1 with _ | pb
  all_goals simp only [hip] at h ⊢
  · simpa using h
  · simpa using h

theorem busyInodeLoop_readOnly (blk : Block) (dirJunk : Nat → Nat) :
    ∀ (l : List Nat) (d : Disk) (m : Nat → Bool),
    ReadOnlyEvolved d (busyInodeLoop d blk dirJunk m l).1 := by
  intro l
  induction l with
  | nil => intro d m; exact readOnlyEvolved_refl d
  | cons j rest ih =>
    intro d m
    unfold busyInodeLoop
    split
    · exact readOnlyEvolved_trans _ _ _
        (free_block_of_inode_readOnly d (getInode blk j) m dirJunk) (ih _ _)
    · exact ih d m

theorem busyBlockLoop_readOnly (dirJunk : Nat → Nat) :
    ∀ (l : List Nat) (d : Disk) (m : Nat → Bool),
    ReadOnlyEvolved d (busyBlockLoop d dirJunk m l).2.1 := by
  intro l
  induction l with
  | nil => intro d m; exact readOnlyEvolved_refl d
  | cons i rest ih =>
    intro d m
    unfold busyBlockLoop
    dsimp only
    split
    · exact disk_read_readOnly d i undefBlock
    · exact readOnlyEvolved_trans _ _ _ (disk_read_readOnly d i undefBlock)
        (readOnlyEvolved_trans _ _ _ (busyInodeLoop_readOnly _ dirJunk _ _ _) (ih _ _))

theorem init_bit_map_readOnly (fs : FileSystem) (mapJunk : Nat → Bool)
    (dirJunk : Nat → Nat) :
    ReadOnlyEvolved fs.disk (init_bit_map fs mapJunk dirJunk).2.disk ∧
      (init_bit_map fs mapJunk dirJunk).2.meta_data = fs.meta_data := by
  unfold init_bit_map busy_block_of_disk
  dsimp only
  split
  · exact ⟨busyBlockLoop_readOnly dirJunk _ _ _, rfl⟩
  · exact ⟨busyBlockLoop_readOnly dirJunk _ _ _, rfl⟩

/-! ## Scan characterizations -/

theorem findZeroSlot_eq_some (pb : Block) :
    ∀ (l : List Nat) (s : Nat), findZeroSlot pb l = some s → s ∈ l ∧ readLE32 pb (4 * s) = 0 := by
  intro l
  induction l with
  | nil => intro s h; simp [findZeroSlot] at h
  | cons a rest ih =>
    intro s h
    unfold findZeroSlot at h
    by_cases hz : readLE32 pb (4 * a) = 0
    · rw [if_pos hz] at h
      cases h
      exact ⟨List.mem_cons_self a rest, hz⟩
    · rw [if_neg hz] at h
      rcases ih s h with ⟨hmem, hzero⟩
      exact ⟨List.mem_cons_of_mem a hmem, hzero⟩

theorem slotScan_eq_none (blk : Block) :
    ∀ (n s : Nat),
    (∀ j, s ≤ j → j < s + n → is_valid_Inode (getInode blk j) = true) →
    slotScan blk (rangeFrom s n) = none := by
  intro n
  induction n with
  | zero => intro s _; rw [rangeFrom_zero]; rfl
  | succ m ih =>
    intro s h
    rw [rangeFrom_succ]
    unfold slotScan
    rw [if_pos (h s (le_refl s) (by omega))]
    exact ih (s + 1) (fun j hj1 hj2 => h j (by omega) (by omega))

theorem slotScan_eq_some (blk : Block) :
    ∀ (n s j : Nat), s ≤ j → j < s + n →
    is_valid_Inode (getInode blk j) = false →
    (∀ i, s ≤ i → i < j → is_valid_Inode (getInode blk i) = true) →
    slotScan blk (rangeFrom s n) = some j := by
  intro n
  induction n with
  | zero => intro s j h1 h2 _ _; omega
  | succ m ih =>
    intro s j h1 h2 hj hprev
    rw [rangeFrom_succ]
    unfold slotScan
    by_cases hs : s = j
    · subst hs
      rw [if_neg (by rw [hj]; exact Bool.false_ne_true)]
    · rw [if_pos (hprev s (le_refl s) (by omega))]
      exact ih (s + 1) j (by omega) (by omega) hj (fun i a b => hprev i (by omega) b)

theorem is_valid_Inode_eq_true (ino : Inode) :
    is_valid_Inode ino = true ↔ ino.valid = 1 := by
  unfold is_valid_Inode
  exact beq_iff_eq
 
theorem is_valid_Inode_eq_false (ino : Inode) :
    is_valid_Inode ino = false ↔ ino.valid ≠ 1 := by
  unfold is_valid_Inode
  simp

theorem fsDiskRead_pass (fs : FileSystem) (blockIdx : Nat)
    (hfd : fs.disk.fdOpen = true) (hb : blockIdx < fs.disk.blocks) :
    fsDiskRead fs blockIdx =
      (0, { fs with disk := { fs.disk with reads := fs.disk.reads + 1 } },
       fs.disk.content blockIdx) := by
  unfold fsDiskRead
  rw [disk_read_pass fs.disk blockIdx undefBlock hfd hb]

theorem fsDiskWrite_pass (fs : FileSystem) (blockIdx : Nat) (b : Block)
    (hfd : fs.disk.fdOpen = true) (hb : blockIdx < fs.disk.blocks) :
    fsDiskWrite fs blockIdx b =
      ((BLOCK_SIZE : Int),
       { fs with disk :=
          { fs.disk with
              content := fun i => if i = blockIdx then b else fs.disk.content i
              writes := fs.disk.writes + 1 } }) := by
  unfold fsDiskWrite
  rw [disk_write_pass fs.disk blockIdx b hfd hb]

theorem createLoop_all_valid (mj : Nat → Bool) (dj : Nat → Nat) :
    ∀ (c s : Nat) (fs : FileSystem),
    fs.disk.fdOpen = true →
    (∀ i, s ≤ i → i < s + c → i < fs.disk.blocks) →
    (∀ i, s ≤ i → i < s + c → ∀ j, j < INODES_PER_BLOCK →
        is_valid_Inode (getInode (fs.disk.content i) j) = true) →
    (createLoop fs mj dj (rangeFrom s c)).1 = none := by
  intro c
  induction c with
  | zero => intro s fs _ _ _; rw [rangeFrom_zero]; rfl
  | succ m ih =>
    intro s fs hfd hb hv
    rw [rangeFrom_succ]
    unfold createLoop
    dsimp only
    rw [fsDiskRead_pass fs s hfd (hb s (le_refl s) (by omega))]
    dsimp only
    rw [slotScan_eq_none (fs.disk.content s) INODES_PER_BLOCK 0
      (fun j _ hj2 => hv s (le_refl s) (by omega) j (by omega))]
    exact ih (s + 1) _ hfd (fun i a b => hb i (by omega) (by omega))
      (fun i a b => hv i (by omega) (by omega))

theorem createLoop_hit (mj : Nat → Bool) (dj : Nat → Nat) :
    ∀ (c s : Nat) (fs : FileSystem) (t j : Nat),
    fs.disk.fdOpen = true →
    (∀ i, s ≤ i → i < s + c → i < fs.disk.blocks) →
    s ≤ t → t < s + c →
    (∀ i, s ≤ i → i < t → ∀ j', j' < INODES_PER_BLOCK →
        is_valid_Inode (getInode (fs.disk.content i) j') = true) →
    j < INODES_PER_BLOCK →
    is_valid_Inode (getInode (fs.disk.content t) j) = false →
    (∀ j', j' < j → is_valid_Inode (getInode (fs.disk.content t) j') = true) →
    (createLoop fs mj dj (rangeFrom s c)).1 = some (j + (t - 1) * INODES_PER_BLOCK) ∧
      (createLoop fs mj dj (rangeFrom s c)).2.disk.content =
        fun b => if b = t then setInode (fs.disk.content t) j newInode
                 else fs.disk.content b := by
  intro c
  induction c with
  | zero => intro s fs t j _ _ hst hts _ _ _ _; omega
  | succ m ih =>
    intro s fs t j hfd hb hst hts hbefore hj hjinv hjprev
    rw [rangeFrom_succ]
    unfold createLoop
    dsimp only
    rw [fsDiskRead_pass fs s hfd (hb s (le_refl s) (by omega))]
    dsimp only
    by_cases hs : s = t
    · subst hs
      rw [slotScan_eq_some (fs.disk.content s) INODES_PER_BLOCK 0 j (by omega)
        (by omega) hjinv (fun i _ b => hjprev i b)]
      dsimp only
      rw [fsDiskWrite_pass
        { disk :=
            { blocks := fs.disk.blocks, fdOpen := fs.disk.fdOpen
              content := fs.disk.content
              reads := fs.disk.reads + 1, writes := fs.disk.writes }
          meta_data := fs.meta_data, free_blocks := fs.free_blocks }
        s (setInode (fs.disk.content s) j newInode) hfd (hb s (le_refl s) (by omega))]
      dsimp only
      refine ⟨rfl, ?_⟩
      have hro := init_bit_map_readOnly
        { disk :=
            { blocks := fs.disk.blocks, fdOpen := fs.disk.fdOpen
              content := fun i =>
                if i = s then setInode (fs.disk.content s) j newInode
                else fs.disk.content i
              reads := fs.disk.reads + 1, writes := fs.disk.writes + 1 }
          meta_data := fs.meta_data, free_blocks := fs.free_blocks } mj dj
      exact hro.1.2.2.1
    · rw [slotScan_eq_none (fs.disk.content s) INODES_PER_BLOCK 0
        (fun j' _ hj2 => hbefore s (le_refl s) (by omega) j' (by omega))]
      exact ih (s + 1) _ t j hfd (fun i a b => hb i (by omega) (by omega))
        (by omega) (by omega) (fun i a b => hbefore i (by omega) b) hj hjinv hjprev

theorem tableInode_eq (fs : FileSystem) (i j : Nat) (hi : 1 ≤ i)
    (hj : j < INODES_PER_BLOCK) :
    tableInode fs ((i - 1) * INODES_PER_BLOCK + j) = getInode (fs.disk.content i) j := by
  unfold tableInode INODES_PER_BLOCK at *
  have e1 : ((i - 1) * 128 + j) / 128 + 1 = i := by omega
  have e2 : ((i - 1) * 128 + j) % 128 = j := by omega
  rw [e1, e2]

/-- C9.  On a mounted filesystem, `fs_create` scans the inode table in
ascending order — block 1 upward, slot 0 upward, which in inode numbers
is ascending order — allocates the first free inode (the preceding
slots holding `valid = 1` and that slot `valid = 0`), initializing
`valid = 1`, `size = 0`, all five direct pointers and `indirect` to 0
on disk, and returns its number; when every inode in the table is valid
it returns the `-1` sentinel (`none`). -/
theorem create_allocates_first_free_inode (fs : FileSystem) (mj : Nat → Bool)
    (dj : Nat → Nat)
    (hfd : fs.disk.fdOpen = true)
    (hib : fs.meta_data.inode_blocks < fs.disk.blocks) :
    ((∀ m, m < INODES_PER_BLOCK * fs.meta_data.inode_blocks →
        (tableInode fs m).valid = 1) → (fs_create fs mj dj).1 = none) ∧
    (∀ n, n < INODES_PER_BLOCK * fs.meta_data.inode_blocks →
        (tableInode fs n).valid = 0 →
        (∀ m, m < n → (tableInode fs m).valid = 1) →
        (fs_create fs mj dj).1 = some n ∧
        (tableInode (fs_create fs mj dj).2 n).valid = 1 ∧
        (tableInode (fs_create fs mj dj).2 n).size = 0 ∧
        (∀ k, k < POINTERS_PER_INODE →
          (tableInode (fs_create fs mj dj).2 n).direct k = 0) ∧
        (tableInode (fs_create fs mj dj).2 n).indirect = 0) := by
  constructor
  · intro hall
    unfold fs_create
    apply createLoop_all_valid mj dj fs.meta_data.inode_blocks 1 fs hfd
    · intro i h1 h2
      omega
    · intro i h1 h2 j hj
      rw [is_valid_Inode_eq_true, ← tableInode_eq fs i j h1 hj]
      exact hall ((i - 1) * INODES_PER_BLOCK + j)
        (by unfold INODES_PER_BLOCK at *; omega)
  · intro n hn h0 hprev
    have hj : n % INODES_PER_BLOCK < INODES_PER_BLOCK := by
      unfold INODES_PER_BLOCK
      omega
    have ht1 : 1 ≤ n / INODES_PER_BLOCK + 1 := Nat.le_add_left 1 _
    have hteq : tableInode fs n =
        getInode (fs.disk.content (n / INODES_PER_BLOCK + 1)) (n % INODES_PER_BLOCK) := rfl
    have hhit := createLoop_hit mj dj fs.meta_data.inode_blocks 1 fs
      (n / INODES_PER_BLOCK + 1) (n % INODES_PER_BLOCK) hfd
      (fun i a b => by omega)
      (by omega)
      (by simp only [INODES_PER_BLOCK] at hn ⊢; omega)
      (fun i a b j' hj' => by
        rw [is_valid_Inode_eq_true, ← tableInode_eq fs i j' a hj']
        exact hprev ((i - 1) * INODES_PER_BLOCK + j')
          (by unfold INODES_PER_BLOCK at *; omega))
      hj
      (by rw [is_valid_Inode_eq_false, ← hteq, h0]; decide)
      (fun j' hj' => by
        rw [is_valid_Inode_eq_true,
          ← tableInode_eq fs (n / INODES_PER_BLOCK + 1) j' ht1 (by omega)]
        exact hprev ((n / INODES_PER_BLOCK + 1 - 1) * INODES_PER_BLOCK + j')
          (by unfold INODES_PER_BLOCK at *; omega))
    have hidx : n % INODES_PER_BLOCK +
        (n / INODES_PER_BLOCK + 1 - 1) * INODES_PER_BLOCK = n := by
      unfold INODES_PER_BLOCK
      omega
    rw [hidx] at hhit
    have hcontent : (fs_create fs mj dj).2.disk.content (n / INODES_PER_BLOCK + 1) =
        setInode (fs.disk.content (n / INODES_PER_BLOCK + 1)) (n % INODES_PER_BLOCK)
          newInode := by
      unfold fs_create
      rw [hhit.2]
      simp
    have htable : tableInode (fs_create fs mj dj).2 n =
        getInode (setInode (fs.disk.content (n / INODES_PER_BLOCK + 1))
          (n % INODES_PER_BLOCK) newInode) (n % INODES_PER_BLOCK) := by
      unfold tableInode
      rw [hcontent]
    refine ⟨hhit.1, ?_, ?_, ?_, ?_⟩
    · rw [htable, getInode_setInode_valid]
      decide
    · rw [htable, getInode_setInode_size]
      decide
    · intro k hk
      rw [htable, getInode_setInode_direct _ _ _ k hk]
      rfl
    · rw [htable, getInode_setInode_indirect]
      decide

/-- A 20-block disk whose blocks are all zero apart from being declared
to hold a one-block inode table in the metadata below: every inode slot
parses with `valid = 0`. -/
def emptyTableDisk : Disk :=
  { blocks := 20, fdOpen := true, reads := 0, writes := 0
    content := fun _ => zeroBlock }

/-- A mounted view of `emptyTableDisk` with blocks 0 and 1 marked used. -/
def emptyTableFS : FileSystem :=
  { disk := emptyTableDisk
    meta_data := { magic_number := MAGIC_NUMBER, blocks := 20, inode_blocks := 1,
                   inodes := 128 }
    free_blocks := fun i => decide (i < 2) }

/-- Witness for C9: on `emptyTableFS` the first free inode is number 0,
and `fs_create` returns it with the initialized fields. -/
theorem create_allocates_first_free_inode_witness :
    (fs_create emptyTableFS (fun _ => false) (fun _ => 0)).1 = some 0 ∧
    (tableInode (fs_create emptyTableFS (fun _ => false) (fun _ => 0)).2 0).valid = 1 ∧
    (tableInode (fs_create emptyTableFS (fun _ => false) (fun _ => 0)).2 0).size = 0 := by
  have h := create_allocates_first_free_inode emptyTableFS (fun _ => false) (fun _ => 0)
    (by decide) (by decide)
  have h2 := h.2 0 (by decide) (by decide) (fun m hm => absurd hm (Nat.not_lt_zero m))
  exact ⟨h2.1, h2.2.1, h2.2.2.1⟩

/-! ## Concrete states used by the remaining claims -/

/-- Block 0 of a well-formed empty 20-block volume. -/
def superBlk20 : Block :=
  putSuper zeroBlock
    { magic_number := MAGIC_NUMBER, blocks := 20, inode_blocks := 2, inodes := 256 }

/-- A freshly formatted 20-block disk: valid superblock, empty inode
table, zero data blocks. -/
def formattedDisk : Disk :=
  { blocks := 20, fdOpen := true, reads := 0, writes := 0
    content := fun b => if b = 0 then superBlk20 else zeroBlock }

/-- An inode-table block whose slot 0 is a fresh valid inode of size 0
with no data blocks. -/
def freshInodeBlk : Block :=
  setInode zeroBlock 0 { valid := 1, size := 0, direct := fun _ => 0, indirect := 0 }

/-- A mounted 20-block filesystem with a one-block inode table whose
inode 0 is valid with size 0; blocks 0 and 1 are in use. -/
def freshFS : FileSystem :=
  { disk :=
      { blocks := 20, fdOpen := true, reads := 0, writes := 0
        content := fun b => if b = 1 then freshInodeBlk else zeroBlock }
    meta_data := { magic_number := MAGIC_NUMBER, blocks := 20, inode_blocks := 1,
                   inodes := 128 }
    free_blocks := fun i => decide (i < 2) }

/-- An indirect pointer block with every one of the 1024 slots nonzero. -/
def fullPtrBlk : Block := fun i => if i % 4 = 0 then 7 else 0

/-- An inode-table block whose slot 0 is a valid inode with indirect
block 6. -/
def indirInodeBlk : Block :=
  setInode zeroBlock 0 { valid := 1, size := 0, direct := fun _ => 0, indirect := 6 }

/-- A mounted 30-block filesystem whose inode 0 owns the full indirect
block 6; every block except 20 is marked used. -/
def fullIndirFS : FileSystem :=
  { disk :=
      { blocks := 30, fdOpen := true, reads := 0, writes := 0
        content := fun b => if b = 1 then indirInodeBlk
                            else if b = 6 then fullPtrBlk else zeroBlock }
    meta_data := { magic_number := MAGIC_NUMBER, blocks := 30, inode_blocks := 2,
                   inodes := 256 }
    free_blocks := fun i => i != 20 }

/-- An inode-table block whose slot 0 is a valid inode of size 10 whose
first direct pointer is block 2. -/
def sizedInodeBlk : Block :=
  setInode zeroBlock 0
    { valid := 1, size := 10, direct := fun k => if k = 0 then 2 else 0, indirect := 0 }

/-- A mounted 20-block filesystem whose inode 0 has size 10 stored in
block 2, every byte of which is 65. -/
def sizedFS : FileSystem :=
  { disk :=
      { blocks := 20, fdOpen := true, reads := 0, writes := 0
        content := fun b => if b = 1 then sizedInodeBlk
                            else if b = 2 then (fun _ => 65) else zeroBlock }
    meta_data := { magic_number := MAGIC_NUMBER, blocks := 20, inode_blocks := 1,
                   inodes := 128 }
    free_blocks := fun i => decide (i < 3) }

/-- The indeterminate malloc contents used to exhibit C1: one stray
`true` at index 15. -/
def junkMap15 : Nat → Bool := fun i => decide (i = 15)

/-- The indeterminate malloc contents used to exhibit C2: one stray
nonzero byte at offset 0 (the `valid` field of inode slot 0). -/
def junkByte0 : Block := fun i => if i = 0 then 1 else 0

/-! ## Claim theorems -/

/-- C1.  `fs_mount` of the freshly formatted `formattedDisk` succeeds,
the disk holds no valid inode at all (so no block above the inode table
is referenced), yet `free_blocks 15` comes out `true`: `init_bit_map`
obtains the bitmap from `malloc` and never clears it, so the
indeterminate contents (here `junkMap15`) survive at every unreferenced
index.  This refutes the all-false starting bitmap and the exactness of
the bitmap after mount. -/
theorem mount_bitmap_junk_not_exact :
    ((fs_mount formattedDisk false junkMap15 (fun _ => 0)).map
        (fun f => f.free_blocks 15)) = some true ∧
    (∀ n, n < 256 →
      (getInode (formattedDisk.content (n / INODES_PER_BLOCK + 1))
        (n % INODES_PER_BLOCK)).valid = 0) ∧
    formattedDisk.content 15 15 = 0 := by
  refine ⟨by decide, by decide, by decide⟩

/-- C2.  `fs_format` on a 20-block disk returns `true` and writes a
correct superblock (`magic`, `blocks = 20`, `inode_blocks = 2`,
`inodes = 256`), but the "cleared" blocks are written from the
uninitialized malloc'd `empty_block_data` buffer: with indeterminate
contents `junkByte0`, inode slot 0 of table block 1 ends up with
`valid = 1`, refuting the zero-filled-blocks and all-inodes-invalid
postcondition. -/
theorem format_junk_block_not_zeroed :
    (fs_format emptyTableDisk false zeroBlock junkByte0).1 = true ∧
    (getSuper ((fs_format emptyTableDisk false zeroBlock junkByte0).2.content 0)).magic_number
        = MAGIC_NUMBER ∧
    (getSuper ((fs_format emptyTableDisk false zeroBlock junkByte0).2.content 0)).blocks = 20 ∧
    (getSuper ((fs_format emptyTableDisk false zeroBlock junkByte0).2.content 0)).inode_blocks
        = 2 ∧
    (getSuper ((fs_format emptyTableDisk false zeroBlock junkByte0).2.content 0)).inodes
        = 256 ∧
    (getInode ((fs_format emptyTableDisk false zeroBlock junkByte0).2.content 1) 0).valid
        = 1 := by
  refine ⟨by decide, by decide, by decide, by decide, by decide, by decide⟩

/-- C3 counterexample.  On `freshFS` (valid inode 0 of size 0),
`fs_write` of one byte at offset `BLOCK_SIZE` (`k = 1`,
`L = 1 ≤ BLOCK_SIZE`) succeeds and returns 1, but the following
`fs_read` at the same offset returns `-1` instead of `L`: the write
only advanced `size` to 1, so the read's `offset >= size` guard fires.
The claim as stated is false for a mounted filesystem whose inode size
is not already `k * BLOCK_SIZE`. -/
theorem write_then_read_fails_past_size :
    (fs_write freshFS 0 (fun _ => 65) 1 BLOCK_SIZE).1 = 1 ∧
    (fs_read (fs_write freshFS 0 (fun _ => 65) 1 BLOCK_SIZE).2 0 zeroBlock 1
      BLOCK_SIZE).1 = -1 := by
  refine ⟨by decide, by decide⟩

/-- C4.  On `fullIndirFS`, `fs_write` at `pt_idx = 5` assigns free
block 20 as the data block, then finds no zero slot in the (full)
indirect block 6 and returns `-1` — but block 20 is still marked used
in the bitmap afterwards: this failure path never calls
`unassign_block`, so the claimed rollback does not happen and the
bitmap differs from its pre-call state. -/
theorem write_full_indirect_leaks_assigned_block :
    (fs_write fullIndirFS 0 (fun _ => 65) 1 (5 * BLOCK_SIZE)).1 = -1 ∧
    fullIndirFS.free_blocks 20 = false ∧
    (fs_write fullIndirFS 0 (fun _ => 65) 1 (5 * BLOCK_SIZE)).2.free_blocks 20
      = true := by
  refine ⟨by decide, by decide, by decide⟩

/-- C5.  On `freshFS`, a successful `fs_write` of `L = 1 < BLOCK_SIZE`
bytes from a buffer whose surrounding memory holds 65 writes the
caller's memory verbatim for all `BLOCK_SIZE` bytes into the new data
block (block 2): byte 1 of the block is 65, not the zero padding the
claim requires, so stale data beyond `length` leaks into the block. -/
theorem write_short_payload_keeps_stale_tail :
    (fs_write freshFS 0 (fun _ => 65) 1 0).1 = 1 ∧
    (fs_write freshFS 0 (fun _ => 65) 1 0).2.disk.content 2 0 = 65 ∧
    (fs_write freshFS 0 (fun _ => 65) 1 0).2.disk.content 2 1 = 65 := by
  refine ⟨by decide, by decide, by decide⟩

/-- C6 counterexample.  On `sizedFS` (valid inode 0, `size = 10`),
`fs_read` with `length = 3`, `offset = 0` returns 3, yet byte 5 of the
destination buffer has been overwritten (the code copies
`min(size - offset, BLOCK_SIZE) = 10` bytes): the returned value does
not equal the number of bytes copied. -/
theorem read_count_returned_ne_copied :
    (fs_read sizedFS 0 zeroBlock 3 0).1 = 3 ∧
    (fs_read sizedFS 0 zeroBlock 3 0).2.2 5 = 65 ∧
    zeroBlock 5 = 0 := by
  refine ⟨by decide, by decide, by decide⟩

/-- C7.  On a successful read (`disk_sanity_check` passes, positional
read succeeds), `disk_read` returns 0, not `BLOCK_SIZE`, while still
incrementing the read counter; `disk_write` does return `BLOCK_SIZE`.
This contradicts the claim (and the source's own doc comment), matching
the spec's noted source ambiguity. -/
theorem disk_read_success_returns_zero :
    disk_sanity_check emptyTableDisk 1 = true ∧
    (disk_read emptyTableDisk 1 zeroBlock).1 = 0 ∧
    (disk_read emptyTableDisk 1 zeroBlock).1 ≠ (BLOCK_SIZE : Int) ∧
    (disk_read emptyTableDisk 1 zeroBlock).2.1.reads = emptyTableDisk.reads + 1 ∧
    (disk_write emptyTableDisk 1 zeroBlock).1 = (BLOCK_SIZE : Int) := by
  refine ⟨by decide, by decide, by decide, by decide, by decide⟩

/-- C8 counterexample.  At `offset = 4096 * 2^32` the claim's premise
`offset / BLOCK_SIZE ≥ POINTERS_PER_INODE + POINTERS_PER_BLOCK` holds,
yet `fs_write` on `freshFS` succeeds (returns the length) and allocates
block 2: the C code stores the quotient in a `uint32_t`, so it wraps to
`pt_idx = 0` and the bound check is bypassed. -/
theorem write_huge_offset_escapes_bound_check :
    4096 * 4294967296 / BLOCK_SIZE ≥ POINTERS_PER_INODE + POINTERS_PER_BLOCK ∧
    (fs_write freshFS 0 (fun _ => 65) 1 (4096 * 4294967296)).1 = 1 ∧
    freshFS.free_blocks 2 = false ∧
    (fs_write freshFS 0 (fun _ => 65) 1 (4096 * 4294967296)).2.free_blocks 2
      = true := by
  refine ⟨by decide, by decide, by decide, by decide⟩

/-- Helper for C3: reading back `L` freshly written bytes.  If inode
`n` has size `k * BLOCK_SIZE + L` and the data block holding bytes
`[k * BLOCK_SIZE, k * BLOCK_SIZE + L)` resolves (directly for
`k < POINTERS_PER_INODE`, through the indirect block otherwise) to a
readable block whose first `L` bytes are `data`, then
`fs_read` at offset `k * BLOCK_SIZE` returns `L` and delivers those
bytes. -/
theorem fs_read_back (fs' : FileSystem) (n k L : Nat) (data out0 : Block)
    (hfd : fs'.disk.fdOpen = true)
    (htblk : n / INODES_PER_BLOCK + 1 < fs'.disk.blocks)
    (hval : (tableInode fs' n).valid = 1)
    (hsize : (tableInode fs' n).size = k * BLOCK_SIZE + L)
    (hL0 : 0 < L) (hL : L ≤ BLOCK_SIZE)
    (hres : ∃ b, b < fs'.disk.blocks ∧ (∀ i, i < L → fs'.disk.content b i = data i) ∧
      ((k < POINTERS_PER_INODE ∧ (tableInode fs' n).direct k = b) ∨
       (POINTERS_PER_INODE ≤ k ∧ (tableInode fs' n).indirect < fs'.disk.blocks ∧
        readLE32 (fs'.disk.content (tableInode fs' n).indirect)
          (4 * ((k - POINTERS_PER_INODE) % POINTERS_PER_BLOCK)) = b))) :
    (fs_read fs' n out0 L (k * BLOCK_SIZE)).1 = (L : Int) ∧
    (∀ i, i < L → (fs_read fs' n out0 L (k * BLOCK_SIZE)).2.2 i = data i) := by
  obtain ⟨b, hblt, hbdata, hcase⟩ := hres
  unfold tableInode at hval hsize
  have hvv : is_valid_Inode
      (getInode (fs'.disk.content (n / INODES_PER_BLOCK + 1)) (n % INODES_PER_BLOCK))
      = true := (is_valid_Inode_eq_true _).mpr hval
  have hguard : ¬(k * BLOCK_SIZE ≥ k * BLOCK_SIZE + L) := by omega
  have hpt : k * BLOCK_SIZE / BLOCK_SIZE = k := by
    unfold BLOCK_SIZE
    omega
  have hmin : min (k * BLOCK_SIZE + L - k * BLOCK_SIZE) BLOCK_SIZE = L := by
    omega
  have hle : k * BLOCK_SIZE + L ≤ k * BLOCK_SIZE + L := le_refl _
  rcases hcase with ⟨h5, hdir⟩ | ⟨h5, hilt, hind⟩
  · unfold tableInode at hdir
    have hout : fs_read fs' n out0 L (k * BLOCK_SIZE) =
        ((L : Int),
         { fs' with disk := { fs'.disk with reads := fs'.disk.reads + 2 } },
         fun i => if i < L then fs'.disk.content b i else out0 i) := by
      simp only [fs_read, fsDiskRead, disk_read, disk_sanity_check, hfd, Bool.true_and,
        decide_eq_true_eq, htblk, ite_true, hvv, hsize, hguard, ite_false, hpt, h5,
        hdir, hblt, hmin, hle]
      rfl
    rw [hout]
    refine ⟨rfl, fun i hi => ?_⟩
    dsimp only
    rw [if_pos hi]
    exact hbdata i hi
  · unfold tableInode at hind
    have h5' : ¬(k * BLOCK_SIZE / BLOCK_SIZE < POINTERS_PER_INODE) := by
      rw [hpt]
      exact not_lt.mpr h5
    unfold tableInode at hilt
    have hout : fs_read fs' n out0 L (k * BLOCK_SIZE) =
        ((L : Int),
         { fs' with disk := { fs'.disk with reads := fs'.disk.reads + 3 } },
         fun i => if i < L then fs'.disk.content b i else out0 i) := by
      simp only [fs_read, fsDiskRead, disk_read, disk_sanity_check, hfd, Bool.true_and,
        decide_eq_true_eq, htblk, ite_true, hvv, hsize, hguard, ite_false, hpt,
        not_lt.mpr h5, hilt, hind, hblt, hmin, hle]
      rfl
    rw [hout]
    refine ⟨rfl, fun i hi => ?_⟩
    dsimp only
    rw [if_pos hi]
    exact hbdata i hi

/-- Helper for C3, write phase, direct case: appending `L` bytes at
offset `k * BLOCK_SIZE` with `k < POINTERS_PER_INODE` installs the
first free block `bk` as `direct[k]`, stores the payload there and
grows the size to `k * BLOCK_SIZE + L`. -/
theorem fs_write_direct_state (fs : FileSystem) (n k L : Nat) (data : Block) (bk : Nat)
    (hfd : fs.disk.fdOpen = true)
    (hmeta : fs.meta_data.blocks = fs.disk.blocks)
    (hb32 : fs.disk.blocks ≤ U32)
    (hn : n < INODES_PER_BLOCK * fs.meta_data.inode_blocks)
    (htable : ∀ i, i ≤ fs.meta_data.inode_blocks → fs.free_blocks i = true)
    (hk : k < POINTERS_PER_INODE)
    (hL : L ≤ BLOCK_SIZE)
    (hval : (tableInode fs n).valid = 1)
    (hsize : (tableInode fs n).size = k * BLOCK_SIZE)
    (hfind : findFreeIdx fs.free_blocks (rangeFrom 0 fs.meta_data.blocks) = some bk) :
    (fs_write fs n data L (k * BLOCK_SIZE)).1 = (L : Int) ∧
    (fs_write fs n data L (k * BLOCK_SIZE)).2.disk.fdOpen = true ∧
    (fs_write fs n data L (k * BLOCK_SIZE)).2.disk.blocks = fs.disk.blocks ∧
    (tableInode (fs_write fs n data L (k * BLOCK_SIZE)).2 n).valid = 1 ∧
    (tableInode (fs_write fs n data L (k * BLOCK_SIZE)).2 n).size = k * BLOCK_SIZE + L ∧
    (tableInode (fs_write fs n data L (k * BLOCK_SIZE)).2 n).direct k = bk ∧
    bk < fs.disk.blocks ∧
    (∀ i, i < L → (fs_write fs n data L (k * BLOCK_SIZE)).2.disk.content bk i = data i) := by
  obtain ⟨hbkmem, hbkfree⟩ := findFreeIdx_eq_some fs.free_blocks _ bk hfind
  have hbklt : bk < fs.meta_data.blocks := by
    have := (mem_rangeFrom fs.meta_data.blocks 0 bk).mp hbkmem
    omega
  have hbkgt : fs.meta_data.inode_blocks < bk := by
    by_contra hle
    rw [htable bk (by omega)] at hbkfree
    cases hbkfree
  have hkk : k < 5 := hk
  have hLL : L ≤ 4096 := hL
  have htblk_lt : n / INODES_PER_BLOCK + 1 < fs.disk.blocks := by
    simp only [INODES_PER_BLOCK] at hn ⊢
    omega
  have hbk_ne_tbl : ¬(bk = n / INODES_PER_BLOCK + 1) := by
    simp only [INODES_PER_BLOCK] at hn ⊢
    omega
  have hbk_lt_disk : bk < fs.disk.blocks := hmeta ▸ hbklt
  have hbkmod : bk % U32 = bk := Nat.mod_eq_of_lt (lt_of_lt_of_le hbk_lt_disk hb32)
  unfold tableInode at hval hsize ⊢
  have hvv : is_valid_Inode
      (getInode (fs.disk.content (n / INODES_PER_BLOCK + 1)) (n % INODES_PER_BLOCK))
      = true := (is_valid_Inode_eq_true _).mpr hval
  have hpt : k * BLOCK_SIZE / BLOCK_SIZE % U32 = k := by
    unfold BLOCK_SIZE U32
    omega
  have hbound : ¬(POINTERS_PER_INODE + POINTERS_PER_BLOCK ≤ k) := by
    simp only [POINTERS_PER_INODE, POINTERS_PER_BLOCK]
    omega
  have hszmod : ((k * BLOCK_SIZE + L) % U32) % U32 = k * BLOCK_SIZE + L := by
    unfold BLOCK_SIZE U32
    omega
  have h1mod : (1 : Nat) % U32 = 1 := by decide
  refine ⟨?_, ?_, ?_, ?_, ?_, ?_, hbk_lt_disk, ?_⟩
  · simp only [fs_write, fsDiskRead, fsDiskWrite, disk_read, disk_write,
      disk_sanity_check, assign_block, hfd, Bool.true_and, decide_eq_true_eq,
      htblk_lt, ite_true, hvv, Bool.true_eq_false, hpt, hbound, ite_false, hfind,
      hbk_lt_disk, hk]
  · simp only [fs_write, fsDiskRead, fsDiskWrite, disk_read, disk_write,
      disk_sanity_check, assign_block, hfd, Bool.true_and, decide_eq_true_eq,
      htblk_lt, ite_true, hvv, Bool.true_eq_false, hpt, hbound, ite_false, hfind,
      hbk_lt_disk, hk]
  · simp only [fs_write, fsDiskRead, fsDiskWrite, disk_read, disk_write,
      disk_sanity_check, assign_block, hfd, Bool.true_and, decide_eq_true_eq,
      htblk_lt, ite_true, hvv, Bool.true_eq_false, hpt, hbound, ite_false, hfind,
      hbk_lt_disk, hk]
  · simp only [fs_write, fsDiskRead, fsDiskWrite, disk_read, disk_write,
      disk_sanity_check, assign_block, hfd, Bool.true_and, decide_eq_true_eq,
      htblk_lt, ite_true, hvv, Bool.true_eq_false, hpt, hbound, ite_false, hfind,
      hbk_lt_disk, hk,
      getInode_setInode_valid, hval, h1mod]
  · simp only [fs_write, fsDiskRead, fsDiskWrite, disk_read, disk_write,
      disk_sanity_check, assign_block, hfd, Bool.true_and, decide_eq_true_eq,
      htblk_lt, ite_true, hvv, Bool.true_eq_false, hpt, hbound, ite_false, hfind,
      hbk_lt_disk, hk,
      getInode_setInode_size, hsize, hszmod]
  · simp only [fs_write, fsDiskRead, fsDiskWrite, disk_read, disk_write,
      disk_sanity_check, assign_block, hfd, Bool.true_and, decide_eq_true_eq,
      htblk_lt, ite_true, hvv, Bool.true_eq_false, hpt, hbound, ite_false, hfind,
      hbk_lt_disk, hk,
      getInode_setInode_direct _ _ _ k hk, hbkmod]
  · intro i hi
    simp only [fs_write, fsDiskRead, fsDiskWrite, disk_read, disk_write,
      disk_sanity_check, assign_block, hfd, Bool.true_and, decide_eq_true_eq,
      htblk_lt, ite_true, hvv, Bool.true_eq_false, hpt, hbound, ite_false, hfind,
      hbk_lt_disk, hk,
      hbk_ne_tbl]

/-- Helper for C3, write phase, existing-indirect case: appending at
`pt_idx = k ≥ POINTERS_PER_INODE` when the inode already has an
indirect block whose first zero slot is `k - POINTERS_PER_INODE`
installs the data block `bk` in that slot. -/
theorem fs_write_indirect_existing_state (fs : FileSystem) (n k L : Nat)
    (data : Block) (bk : Nat)
    (hfd : fs.disk.fdOpen = true)
    (hmeta : fs.meta_data.blocks = fs.disk.blocks)
    (hb32 : fs.disk.blocks ≤ U32)
    (hn : n < INODES_PER_BLOCK * fs.meta_data.inode_blocks)
    (htable : ∀ i, i ≤ fs.meta_data.inode_blocks → fs.free_blocks i = true)
    (hk5 : POINTERS_PER_INODE ≤ k)
    (hk : k < POINTERS_PER_INODE + POINTERS_PER_BLOCK)
    (hL : L ≤ BLOCK_SIZE)
    (hval : (tableInode fs n).valid = 1)
    (hsize : (tableInode fs n).size = k * BLOCK_SIZE)
    (hfind : findFreeIdx fs.free_blocks (rangeFrom 0 fs.meta_data.blocks) = some bk)
    (hip0 : (tableInode fs n).indirect ≠ 0)
    (hipgt : fs.meta_data.inode_blocks < (tableInode fs n).indirect)
    (hiplt : (tableInode fs n).indirect < fs.disk.blocks)
    (hipused : fs.free_blocks (tableInode fs n).indirect = true)
    (hzs : findZeroSlot (fs.disk.content (tableInode fs n).indirect)
        (rangeFrom 0 POINTERS_PER_BLOCK) = some (k - POINTERS_PER_INODE)) :
    (fs_write fs n data L (k * BLOCK_SIZE)).1 = (L : Int) ∧
    (fs_write fs n data L (k * BLOCK_SIZE)).2.disk.fdOpen = true ∧
    (fs_write fs n data L (k * BLOCK_SIZE)).2.disk.blocks = fs.disk.blocks ∧
    (tableInode (fs_write fs n data L (k * BLOCK_SIZE)).2 n).valid = 1 ∧
    (tableInode (fs_write fs n data L (k * BLOCK_SIZE)).2 n).size = k * BLOCK_SIZE + L ∧
    (tableInode (fs_write fs n data L (k * BLOCK_SIZE)).2 n).indirect
      = (tableInode fs n).indirect ∧
    readLE32 ((fs_write fs n data L (k * BLOCK_SIZE)).2.disk.content
        (tableInode fs n).indirect)
        (4 * ((k - POINTERS_PER_INODE) % POINTERS_PER_BLOCK)) = bk ∧
    bk < fs.disk.blocks ∧
    (∀ i, i < L →
      (fs_write fs n data L (k * BLOCK_SIZE)).2.disk.content bk i = data i) := by
  obtain ⟨hbkmem, hbkfree⟩ := findFreeIdx_eq_some fs.free_blocks _ bk hfind
  have hbklt : bk < fs.meta_data.blocks := by
    have := (mem_rangeFrom fs.meta_data.blocks 0 bk).mp hbkmem
    omega
  have hbkgt : fs.meta_data.inode_blocks < bk := by
    by_contra hle
    rw [htable bk (by omega)] at hbkfree
    cases hbkfree
  have hkk5 : 5 ≤ k := hk5
  have hkk : k < 1029 := hk
  have hLL : L ≤ 4096 := hL
  have htblk_lt : n / INODES_PER_BLOCK + 1 < fs.disk.blocks := by
    simp only [INODES_PER_BLOCK] at hn ⊢
    omega
  have hbk_ne_tbl : ¬(bk = n / INODES_PER_BLOCK + 1) := by
    simp only [INODES_PER_BLOCK] at hn ⊢
    omega
  have hbk_lt_disk : bk < fs.disk.blocks := hmeta ▸ hbklt
  have hbkmod : bk % U32 = bk := Nat.mod_eq_of_lt (lt_of_lt_of_le hbk_lt_disk hb32)
  have hbk_ne_ip : ¬(bk = (tableInode fs n).indirect) := by
    intro he
    rw [he, hipused] at hbkfree
    cases hbkfree
  have hip_ne_tbl : ¬((tableInode fs n).indirect = n / INODES_PER_BLOCK + 1) := by
    simp only [INODES_PER_BLOCK] at hn hipgt ⊢
    omega
  have hip_ne_bk : ¬((tableInode fs n).indirect = bk) := fun he => hbk_ne_ip he.symm
  have hipmod : (tableInode fs n).indirect % U32 = (tableInode fs n).indirect :=
    Nat.mod_eq_of_lt (lt_of_lt_of_le hiplt hb32)
  have him : (k - POINTERS_PER_INODE) % POINTERS_PER_BLOCK = k - POINTERS_PER_INODE := by
    simp only [POINTERS_PER_INODE, POINTERS_PER_BLOCK]
    omega
  unfold tableInode at hval hsize hip0 hipgt hiplt hipused hzs hbk_ne_ip
  unfold tableInode at hip_ne_tbl hip_ne_bk hipmod ⊢
  have hvv : is_valid_Inode
      (getInode (fs.disk.content (n / INODES_PER_BLOCK + 1)) (n % INODES_PER_BLOCK))
      = true := (is_valid_Inode_eq_true _).mpr hval
  have hpt : k * BLOCK_SIZE / BLOCK_SIZE % U32 = k := by
    unfold BLOCK_SIZE U32
    omega
  have hnk5 : ¬(k < POINTERS_PER_INODE) := by
    simp only [POINTERS_PER_INODE]
    omega
  have hbound : ¬(POINTERS_PER_INODE + POINTERS_PER_BLOCK ≤ k) := by
    simp only [POINTERS_PER_INODE, POINTERS_PER_BLOCK]
    omega
  have hszmod : ((k * BLOCK_SIZE + L) % U32) % U32 = k * BLOCK_SIZE + L := by
    unfold BLOCK_SIZE U32
    omega
  have h1mod : (1 : Nat) % U32 = 1 := by decide
  refine ⟨?_, ?_, ?_, ?_, ?_, ?_, ?_, hbk_lt_disk, ?_⟩
  · simp only [fs_write, fsDiskRead, fsDiskWrite, disk_read, disk_write,
      disk_sanity_check, assign_block, writeViaIndirect, hfd, Bool.true_and,
      decide_eq_true_eq, htblk_lt, ite_true, hvv, Bool.true_eq_false, hpt, hbound,
      ite_false, hfind, hbk_lt_disk, hnk5, hip0, hbk_ne_ip, hip_ne_bk, hiplt, hzs, him]
  · simp only [fs_write, fsDiskRead, fsDiskWrite, disk_read, disk_write,
      disk_sanity_check, assign_block, writeViaIndirect, hfd, Bool.true_and,
      decide_eq_true_eq, htblk_lt, ite_true, hvv, Bool.true_eq_false, hpt, hbound,
      ite_false, hfind, hbk_lt_disk, hnk5, hip0, hbk_ne_ip, hip_ne_bk, hiplt, hzs, him]
  · simp only [fs_write, fsDiskRead, fsDiskWrite, disk_read, disk_write,
      disk_sanity_check, assign_block, writeViaIndirect, hfd, Bool.true_and,
      decide_eq_true_eq, htblk_lt, ite_true, hvv, Bool.true_eq_false, hpt, hbound,
      ite_false, hfind, hbk_lt_disk, hnk5, hip0, hbk_ne_ip, hip_ne_bk, hiplt, hzs, him]
  · simp only [fs_write, fsDiskRead, fsDiskWrite, disk_read, disk_write,
      disk_sanity_check, assign_block, writeViaIndirect, hfd, Bool.true_and,
      decide_eq_true_eq, htblk_lt, ite_true, hvv, Bool.true_eq_false, hpt, hbound,
      ite_false, hfind, hbk_lt_disk, hnk5, hip0, hbk_ne_ip, hip_ne_bk, hiplt, hzs, him,
      getInode_setInode_valid, hval, h1mod]
  · simp only [fs_write, fsDiskRead, fsDiskWrite, disk_read, disk_write,
      disk_sanity_check, assign_block, writeViaIndirect, hfd, Bool.true_and,
      decide_eq_true_eq, htblk_lt, ite_true, hvv, Bool.true_eq_false, hpt, hbound,
      ite_false, hfind, hbk_lt_disk, hnk5, hip0, hbk_ne_ip, hip_ne_bk, hiplt, hzs, him,
      getInode_setInode_size, hsize, hszmod]
  · simp only [fs_write, fsDiskRead, fsDiskWrite, disk_read, disk_write,
      disk_sanity_check, assign_block, writeViaIndirect, hfd, Bool.true_and,
      decide_eq_true_eq, htblk_lt, ite_true, hvv, Bool.true_eq_false, hpt, hbound,
      ite_false, hfind, hbk_lt_disk, hnk5, hip0, hbk_ne_ip, hip_ne_bk, hiplt, hzs, him,
      getInode_setInode_indirect, hipmod]
  · simp only [fs_write, fsDiskRead, fsDiskWrite, disk_read, disk_write,
      disk_sanity_check, assign_block, writeViaIndirect, hfd, Bool.true_and,
      decide_eq_true_eq, htblk_lt, ite_true, hvv, Bool.true_eq_false, hpt, hbound,
      ite_false, hfind, hbk_lt_disk, hnk5, hip0, hbk_ne_ip, hip_ne_bk, hiplt, hzs,
      him, hip_ne_tbl]
    rw [readLE32_writeLE32_of_eq _ _ _ _ rfl]
    exact hbkmod
  · intro i hi
    simp only [fs_write, fsDiskRead, fsDiskWrite, disk_read, disk_write,
      disk_sanity_check, assign_block, writeViaIndirect, hfd, Bool.true_and,
      decide_eq_true_eq, htblk_lt, ite_true, hvv, Bool.true_eq_false, hpt, hbound,
      ite_false, hfind, hbk_lt_disk, hnk5, hip0, hbk_ne_ip, hip_ne_bk, hiplt, hzs, him,
      hbk_ne_tbl]

/-- Helper for C3, write phase, fresh-indirect case: appending at
`pt_idx = POINTERS_PER_INODE` when the inode has no indirect block yet
allocates one (`ib2`, the next free block after `bk`), zero-fills it
and installs the data block `bk` in its slot 0. -/
theorem fs_write_indirect_fresh_state (fs : FileSystem) (n L : Nat)
    (data : Block) (bk ib2 : Nat)
    (hfd : fs.disk.fdOpen = true)
    (hmeta : fs.meta_data.blocks = fs.disk.blocks)
    (hb32 : fs.disk.blocks ≤ U32)
    (hn : n < INODES_PER_BLOCK * fs.meta_data.inode_blocks)
    (htable : ∀ i, i ≤ fs.meta_data.inode_blocks → fs.free_blocks i = true)
    (hL : L ≤ BLOCK_SIZE)
    (hval : (tableInode fs n).valid = 1)
    (hsize : (tableInode fs n).size = POINTERS_PER_INODE * BLOCK_SIZE)
    (hfind : findFreeIdx fs.free_blocks (rangeFrom 0 fs.meta_data.blocks) = some bk)
    (hip0 : (tableInode fs n).indirect = 0)
    (hfind2 : findFreeIdx (setMap fs.free_blocks bk true)
        (rangeFrom 0 fs.meta_data.blocks) = some ib2) :
    (fs_write fs n data L (POINTERS_PER_INODE * BLOCK_SIZE)).1 = (L : Int) ∧
    (fs_write fs n data L (POINTERS_PER_INODE * BLOCK_SIZE)).2.disk.fdOpen = true ∧
    (fs_write fs n data L (POINTERS_PER_INODE * BLOCK_SIZE)).2.disk.blocks
      = fs.disk.blocks ∧
    (tableInode (fs_write fs n data L (POINTERS_PER_INODE * BLOCK_SIZE)).2 n).valid
      = 1 ∧
    (tableInode (fs_write fs n data L (POINTERS_PER_INODE * BLOCK_SIZE)).2 n).size
      = POINTERS_PER_INODE * BLOCK_SIZE + L ∧
    (tableInode (fs_write fs n data L (POINTERS_PER_INODE * BLOCK_SIZE)).2 n).indirect
      = ib2 ∧
    ib2 < fs.disk.blocks ∧
    readLE32 ((fs_write fs n data L (POINTERS_PER_INODE * BLOCK_SIZE)).2.disk.content
        ib2)
        (4 * ((POINTERS_PER_INODE - POINTERS_PER_INODE) % POINTERS_PER_BLOCK)) = bk ∧
    bk < fs.disk.blocks ∧
    (∀ i, i < L →
      (fs_write fs n data L (POINTERS_PER_INODE * BLOCK_SIZE)).2.disk.content bk i
        = data i) := by
  obtain ⟨hbkmem, hbkfree⟩ := findFreeIdx_eq_some fs.free_blocks _ bk hfind
  obtain ⟨hib2mem, hib2free⟩ :=
    findFreeIdx_eq_some (setMap fs.free_blocks bk true) _ ib2 hfind2
  have hbklt : bk < fs.meta_data.blocks := by
    have := (mem_rangeFrom fs.meta_data.blocks 0 bk).mp hbkmem
    omega
  have hib2lt : ib2 < fs.meta_data.blocks := by
    have := (mem_rangeFrom fs.meta_data.blocks 0 ib2).mp hib2mem
    omega
  have hib2_ne_bk : ¬(ib2 = bk) := by
    intro he
    rw [he, setMap_apply_same] at hib2free
    cases hib2free
  have hib2free' : fs.free_blocks ib2 = false := by
    rw [setMap_apply_of_ne fs.free_blocks bk true ib2 hib2_ne_bk] at hib2free
    exact hib2free
  have hbkgt : fs.meta_data.inode_blocks < bk := by
    by_contra hle
    rw [htable bk (by omega)] at hbkfree
    cases hbkfree
  have hib2gt : fs.meta_data.inode_blocks < ib2 := by
    by_contra hle
    rw [htable ib2 (by omega)] at hib2free'
    cases hib2free'
  have hLL : L ≤ 4096 := hL
  have htblk_lt : n / INODES_PER_BLOCK + 1 < fs.disk.blocks := by
    simp only [INODES_PER_BLOCK] at hn ⊢
    omega
  have hbk_ne_tbl : ¬(bk = n / INODES_PER_BLOCK + 1) := by
    simp only [INODES_PER_BLOCK] at hn ⊢
    omega
  have hib2_ne_tbl : ¬(ib2 = n / INODES_PER_BLOCK + 1) := by
    simp only [INODES_PER_BLOCK] at hn ⊢
    omega
  have hbk_ne_ib2 : ¬(bk = ib2) := fun he => hib2_ne_bk he.symm
  have hbk_lt_disk : bk < fs.disk.blocks := hmeta ▸ hbklt
  have hib2_lt_disk : ib2 < fs.disk.blocks := hmeta ▸ hib2lt
  have hbkmod : bk % U32 = bk := Nat.mod_eq_of_lt (lt_of_lt_of_le hbk_lt_disk hb32)
  have hib2mod : ib2 % U32 = ib2 := Nat.mod_eq_of_lt (lt_of_lt_of_le hib2_lt_disk hb32)
  unfold tableInode at hval hsize hip0 ⊢
  have hvv : is_valid_Inode
      (getInode (fs.disk.content (n / INODES_PER_BLOCK + 1)) (n % INODES_PER_BLOCK))
      = true := (is_valid_Inode_eq_true _).mpr hval
  have hpt : POINTERS_PER_INODE * BLOCK_SIZE / BLOCK_SIZE % U32 = POINTERS_PER_INODE :=
    by decide
  have hnk5 : ¬(POINTERS_PER_INODE < POINTERS_PER_INODE) := lt_irrefl _
  have hbound : ¬(POINTERS_PER_INODE + POINTERS_PER_BLOCK ≤ POINTERS_PER_INODE) := by
    decide
  have hszmod : ((POINTERS_PER_INODE * BLOCK_SIZE + L) % U32) % U32
      = POINTERS_PER_INODE * BLOCK_SIZE + L := by
    unfold POINTERS_PER_INODE BLOCK_SIZE U32
    omega
  have h1mod : (1 : Nat) % U32 = 1 := by decide
  have hz0 : findZeroSlot zeroBlock (rangeFrom 0 POINTERS_PER_BLOCK) = some 0 := rfl
  have him0 : (POINTERS_PER_INODE - POINTERS_PER_INODE) % POINTERS_PER_BLOCK = 0 := by
    decide
  refine ⟨?_, ?_, ?_, ?_, ?_, ?_, hib2_lt_disk, ?_, hbk_lt_disk, ?_⟩
  · simp only [fs_write, fsDiskRead, fsDiskWrite, disk_read, disk_write,
      disk_sanity_check, assign_block, writeViaIndirect, hfd, Bool.true_and,
      decide_eq_true_eq, htblk_lt, ite_true, hvv, Bool.true_eq_false, hpt, hbound,
      ite_false, hfind, hfind2, hbk_lt_disk, hib2_lt_disk, hnk5, hip0, hz0]
  · simp only [fs_write, fsDiskRead, fsDiskWrite, disk_read, disk_write,
      disk_sanity_check, assign_block, writeViaIndirect, hfd, Bool.true_and,
      decide_eq_true_eq, htblk_lt, ite_true, hvv, Bool.true_eq_false, hpt, hbound,
      ite_false, hfind, hfind2, hbk_lt_disk, hib2_lt_disk, hnk5, hip0, hz0]
  · simp only [fs_write, fsDiskRead, fsDiskWrite, disk_read, disk_write,
      disk_sanity_check, assign_block, writeViaIndirect, hfd, Bool.true_and,
      decide_eq_true_eq, htblk_lt, ite_true, hvv, Bool.true_eq_false, hpt, hbound,
      ite_false, hfind, hfind2, hbk_lt_disk, hib2_lt_disk, hnk5, hip0, hz0]
  · simp only [fs_write, fsDiskRead, fsDiskWrite, disk_read, disk_write,
      disk_sanity_check, assign_block, writeViaIndirect, hfd, Bool.true_and,
      decide_eq_true_eq, htblk_lt, ite_true, hvv, Bool.true_eq_false, hpt, hbound,
      ite_false, hfind, hfind2, hbk_lt_disk, hib2_lt_disk, hnk5, hip0, hz0,
      getInode_setInode_valid, hval, h1mod]
  · simp only [fs_write, fsDiskRead, fsDiskWrite, disk_read, disk_write,
      disk_sanity_check, assign_block, writeViaIndirect, hfd, Bool.true_and,
      decide_eq_true_eq, htblk_lt, ite_true, hvv, Bool.true_eq_false, hpt, hbound,
      ite_false, hfind, hfind2, hbk_lt_disk, hib2_lt_disk, hnk5, hip0, hz0,
      getInode_setInode_size, hsize, hszmod]
  · simp only [fs_write, fsDiskRead, fsDiskWrite, disk_read, disk_write,
      disk_sanity_check, assign_block, writeViaIndirect, hfd, Bool.true_and,
      decide_eq_true_eq, htblk_lt, ite_true, hvv, Bool.true_eq_false, hpt, hbound,
      ite_false, hfind, hfind2, hbk_lt_disk, hib2_lt_disk, hnk5, hip0, hz0,
      getInode_setInode_indirect, hib2mod]
  · simp only [fs_write, fsDiskRead, fsDiskWrite, disk_read, disk_write,
      disk_sanity_check, assign_block, writeViaIndirect, hfd, Bool.true_and,
      decide_eq_true_eq, htblk_lt, ite_true, hvv, Bool.true_eq_false, hpt, hbound,
      ite_false, hfind, hfind2, hbk_lt_disk, hib2_lt_disk, hnk5, hip0, hz0, him0,
      hib2_ne_tbl, Nat.mul_zero]
    rw [readLE32_writeLE32_of_eq _ _ _ _ (by omega)]
    exact hbkmod
  · intro i hi
    simp only [fs_write, fsDiskRead, fsDiskWrite, disk_read, disk_write,
      disk_sanity_check, assign_block, writeViaIndirect, hfd, Bool.true_and,
      decide_eq_true_eq, htblk_lt, ite_true, hvv, Bool.true_eq_false, hpt, hbound,
      ite_false, hfind, hfind2, hbk_lt_disk, hib2_lt_disk, hnk5, hip0, hz0,
      hbk_ne_tbl, hbk_ne_ib2]

/-- C3 (amended).  On a mounted filesystem, `fs_write` of
`0 < L ≤ BLOCK_SIZE` bytes at offset `k * BLOCK_SIZE` followed by
`fs_read` of `L` bytes at the same offset returns `L` and delivers the
written bytes, provided the write is a sequential append — the inode's
size is exactly `k * BLOCK_SIZE` — a free block exists, and (for
`k ≥ POINTERS_PER_INODE`) the indirect block is densely packed so that
its first zero slot is `k - POINTERS_PER_INODE` (with `k =
POINTERS_PER_INODE` and a second free block when no indirect block
exists yet).  The original claim, quantified over arbitrary mounted
states, offsets and `L ≤ BLOCK_SIZE`, is refuted by
`write_then_read_fails_past_size`. -/
theorem write_read_roundtrip_sequential (fs : FileSystem) (n k L : Nat)
    (data out0 : Block) (bk : Nat)
    (hfd : fs.disk.fdOpen = true)
    (hmeta : fs.meta_data.blocks = fs.disk.blocks)
    (hb32 : fs.disk.blocks ≤ U32)
    (hn : n < INODES_PER_BLOCK * fs.meta_data.inode_blocks)
    (htable : ∀ i, i ≤ fs.meta_data.inode_blocks → fs.free_blocks i = true)
    (hk : k < POINTERS_PER_INODE + POINTERS_PER_BLOCK)
    (hL0 : 0 < L) (hL : L ≤ BLOCK_SIZE)
    (hval : (tableInode fs n).valid = 1)
    (hsize : (tableInode fs n).size = k * BLOCK_SIZE)
    (hfind : findFreeIdx fs.free_blocks (rangeFrom 0 fs.meta_data.blocks) = some bk)
    (hind : POINTERS_PER_INODE ≤ k →
      (if (tableInode fs n).indirect = 0 then
        k = POINTERS_PER_INODE ∧
        (findFreeIdx (setMap fs.free_blocks bk true)
          (rangeFrom 0 fs.meta_data.blocks)).isSome = true
       else
        fs.meta_data.inode_blocks < (tableInode fs n).indirect ∧
        (tableInode fs n).indirect < fs.disk.blocks ∧
        fs.free_blocks (tableInode fs n).indirect = true ∧
        findZeroSlot (fs.disk.content (tableInode fs n).indirect)
          (rangeFrom 0 POINTERS_PER_BLOCK) = some (k - POINTERS_PER_INODE))) :
    (fs_write fs n data L (k * BLOCK_SIZE)).1 = (L : Int) ∧
    (fs_read (fs_write fs n data L (k * BLOCK_SIZE)).2 n out0 L (k * BLOCK_SIZE)).1
      = (L : Int) ∧
    (∀ i, i < L →
      (fs_read (fs_write fs n data L (k * BLOCK_SIZE)).2 n out0 L
        (k * BLOCK_SIZE)).2.2 i = data i) := by
  obtain ⟨hbkmem, hbkfree⟩ := findFreeIdx_eq_some fs.free_blocks _ bk hfind
  have hbklt : bk < fs.meta_data.blocks := by
    have := (mem_rangeFrom fs.meta_data.blocks 0 bk).mp hbkmem
    omega
  have hbkgt : fs.meta_data.inode_blocks < bk := by
    by_contra hle
    rw [htable bk (by omega)] at hbkfree
    cases hbkfree
  have htblk_lt : n / INODES_PER_BLOCK + 1 < fs.disk.blocks := by
    simp only [INODES_PER_BLOCK] at hn ⊢
    omega
  rcases Nat.lt_or_ge k POINTERS_PER_INODE with h5 | h5
  · obtain ⟨hw1, hwfd, hwblocks, hwval, hwsize, hwdir, hwbk, hwdata⟩ :=
      fs_write_direct_state fs n k L data bk hfd hmeta hb32 hn htable h5 hL hval
        hsize hfind
    refine ⟨hw1, ?_⟩
    exact fs_read_back (fs_write fs n data L (k * BLOCK_SIZE)).2 n k L data out0
      hwfd (by rw [hwblocks]; exact htblk_lt) hwval hwsize hL0 hL
      ⟨bk, by rw [hwblocks]; exact hwbk, hwdata, Or.inl ⟨h5, hwdir⟩⟩
  · have hi := hind h5
    by_cases hip : (tableInode fs n).indirect = 0
    · rw [if_pos hip] at hi
      obtain ⟨hke, hsome⟩ := hi
      subst hke
      obtain ⟨ib2, hfind2⟩ := Option.isSome_iff_exists.mp hsome
      obtain ⟨hw1, hwfd, hwblocks, hwval, hwsize, hwindir, hwib2, hwread, hwbk,
        hwdata⟩ :=
        fs_write_indirect_fresh_state fs n L data bk ib2 hfd hmeta hb32 hn htable
          hL hval hsize hfind hip hfind2
      refine ⟨hw1, ?_⟩
      exact fs_read_back
        (fs_write fs n data L (POINTERS_PER_INODE * BLOCK_SIZE)).2 n
        POINTERS_PER_INODE L data out0 hwfd (by rw [hwblocks]; exact htblk_lt)
        hwval hwsize hL0 hL
        ⟨bk, by rw [hwblocks]; exact hwbk, hwdata,
         Or.inr ⟨le_refl _, by rw [hwindir, hwblocks]; exact hwib2,
           by rw [hwindir]; exact hwread⟩⟩
    · rw [if_neg hip] at hi
      obtain ⟨hipgt, hiplt, hipused, hzs⟩ := hi
      obtain ⟨hw1, hwfd, hwblocks, hwval, hwsize, hwindir, hwread, hwbk, hwdata⟩ :=
        fs_write_indirect_existing_state fs n k L data bk hfd hmeta hb32 hn htable
          h5 hk hL hval hsize hfind hip hipgt hiplt hipused hzs
      refine ⟨hw1, ?_⟩
      exact fs_read_back (fs_write fs n data L (k * BLOCK_SIZE)).2 n k L data out0
        hwfd (by rw [hwblocks]; exact htblk_lt) hwval hwsize hL0 hL
        ⟨bk, by rw [hwblocks]; exact hwbk, hwdata,
         Or.inr ⟨h5, by rw [hwindir, hwblocks]; exact hiplt,
           by rw [hwindir]; exact hwread⟩⟩

/-- Witness for C3: on `freshFS` (valid inode 0 of size 0), writing one
byte at offset 0 and reading it back returns 1 and the byte. -/
theorem write_read_roundtrip_sequential_witness :
    (fs_write freshFS 0 (fun _ => 65) 1 (0 * BLOCK_SIZE)).1 = (1 : Int) ∧
    (fs_read (fs_write freshFS 0 (fun _ => 65) 1 (0 * BLOCK_SIZE)).2 0 zeroBlock 1
      (0 * BLOCK_SIZE)).1 = (1 : Int) ∧
    (∀ i, i < 1 →
      (fs_read (fs_write freshFS 0 (fun _ => 65) 1 (0 * BLOCK_SIZE)).2 0 zeroBlock 1
        (0 * BLOCK_SIZE)).2.2 i = (fun _ => 65) i) :=
  write_read_roundtrip_sequential freshFS 0 0 1 (fun _ => 65) zeroBlock 2
    (by decide) (by decide) (by decide) (by decide) (by decide) (by decide)
    (by decide) (by decide) (by decide) (by decide) (by decide)
    (fun h => absurd h (by decide))

/-- C6 (amended).  For every `fs_read` on a valid inode with
`offset < size`: the value returned is `length` when
`offset + length ≤ size` and `size - offset` otherwise, while the
number of bytes copied into the destination buffer is
`min(size - offset, BLOCK_SIZE)` — the buffer is overwritten below that
bound (from the resolved data block) and untouched above it.  The two
quantities differ in general: `read_count_returned_ne_copied` refutes
the original claim's assertion that the returned value equals the
number of bytes copied. -/
theorem read_return_value_and_copy_extent (fs : FileSystem) (n : Nat) (data : Block)
    (length offset : Nat)
    (hfd : fs.disk.fdOpen = true)
    (hblk : n / INODES_PER_BLOCK + 1 < fs.disk.blocks)
    (hval : (tableInode fs n).valid = 1)
    (hoff : offset < (tableInode fs n).size) :
    (fs_read fs n data length offset).1 =
      (if offset + length ≤ (tableInode fs n).size then (length : Int)
       else (((tableInode fs n).size - offset : Nat) : Int)) ∧
    (∃ src : Block, (fs_read fs n data length offset).2.2 =
      fun i => if i < min ((tableInode fs n).size - offset) BLOCK_SIZE then src i
               else data i) := by
  unfold tableInode at hval hoff ⊢
  have hvv : is_valid_Inode
      (getInode (fs.disk.content (n / INODES_PER_BLOCK + 1)) (n % INODES_PER_BLOCK))
      = true := (is_valid_Inode_eq_true _).mpr hval
  have hguard : ¬(offset ≥
      (getInode (fs.disk.content (n / INODES_PER_BLOCK + 1))
        (n % INODES_PER_BLOCK)).size) := not_le.mpr hoff
  constructor
  · simp only [fs_read, fsDiskRead, disk_read, disk_sanity_check, hfd, Bool.true_and,
      decide_eq_true_eq, hblk, ite_true, hvv, Bool.true_eq_false, ite_false, hguard]
  · refine ⟨?_, ?_⟩
    case _ => exact (fs_read fs n data length offset).2.2
    case _ =>
      funext i
      by_cases him : i < min
          ((getInode (fs.disk.content (n / INODES_PER_BLOCK + 1))
            (n % INODES_PER_BLOCK)).size - offset) BLOCK_SIZE
      · rw [if_pos him]
      · rw [if_neg him]
        simp only [fs_read, fsDiskRead, disk_read, disk_sanity_check, hfd,
          Bool.true_and, decide_eq_true_eq, hblk, ite_true, hvv, Bool.true_eq_false,
          ite_false, hguard]
        rw [if_neg him]

/-- Witness for C6: on `sizedFS` (inode 0, size 10), a read of length
10 at offset 0 returns 10 and copies exactly `min(10, BLOCK_SIZE)`
bytes. -/
theorem read_return_value_and_copy_extent_witness :
    (fs_read sizedFS 0 zeroBlock 10 0).1 =
      (if 0 + 10 ≤ (tableInode sizedFS 0).size then (10 : Int)
       else (((tableInode sizedFS 0).size - 0 : Nat) : Int)) ∧
    (∃ src : Block, (fs_read sizedFS 0 zeroBlock 10 0).2.2 =
      fun i => if i < min ((tableInode sizedFS 0).size - 0) BLOCK_SIZE then src i
               else zeroBlock i) :=
  read_return_value_and_copy_extent sizedFS 0 zeroBlock 10 0
    (by decide) (by decide) (by decide) (by decide)

/-- C8 (amended).  For every valid inode and every
`offset < BLOCK_SIZE * 2^32` with
`offset / BLOCK_SIZE ≥ POINTERS_PER_INODE + POINTERS_PER_BLOCK`,
`fs_write` returns `-1` before allocating any block: the bitmap, the
disk contents and the write counter are untouched.  The restriction to
`offset < BLOCK_SIZE * 2^32` is forced by the code: it truncates
`offset / BLOCK_SIZE` to `uint32_t`, so for larger offsets the quotient
wraps and the bound check is bypassed
(`write_huge_offset_escapes_bound_check`). -/
theorem write_offset_beyond_max_rejected (fs : FileSystem) (n : Nat) (data : Block)
    (length offset : Nat)
    (hfd : fs.disk.fdOpen = true)
    (hblk : n / INODES_PER_BLOCK + 1 < fs.disk.blocks)
    (hval : (tableInode fs n).valid = 1)
    (hoff : POINTERS_PER_INODE + POINTERS_PER_BLOCK ≤ offset / BLOCK_SIZE)
    (hlt : offset < BLOCK_SIZE * U32) :
    (fs_write fs n data length offset).1 = -1 ∧
    (fs_write fs n data length offset).2.free_blocks = fs.free_blocks ∧
    (fs_write fs n data length offset).2.disk.content = fs.disk.content ∧
    (fs_write fs n data length offset).2.disk.writes = fs.disk.writes := by
  unfold tableInode at hval
  have hvv : is_valid_Inode
      (getInode (fs.disk.content (n / INODES_PER_BLOCK + 1)) (n % INODES_PER_BLOCK))
      = true := (is_valid_Inode_eq_true _).mpr hval
  have hmod : offset / BLOCK_SIZE % U32 = offset / BLOCK_SIZE := by
    unfold BLOCK_SIZE U32 at *
    omega
  have hge : POINTERS_PER_INODE + POINTERS_PER_BLOCK ≤ offset / BLOCK_SIZE % U32 := by
    rw [hmod]
    exact hoff
  refine ⟨?_, ?_, ?_, ?_⟩ <;>
    simp only [fs_write, fsDiskRead, disk_read, disk_sanity_check, hfd, Bool.true_and,
      decide_eq_true_eq, hblk, ite_true, hvv, Bool.true_eq_false, ite_false,
      ge_iff_le, hge]

/-- Witness for C8: a write at offset exactly
`(POINTERS_PER_INODE + POINTERS_PER_BLOCK) * BLOCK_SIZE` on `freshFS`
fails with `-1` and changes nothing. -/
theorem write_offset_beyond_max_rejected_witness :
    (fs_write freshFS 0 zeroBlock 1
      ((POINTERS_PER_INODE + POINTERS_PER_BLOCK) * BLOCK_SIZE)).1 = -1 ∧
    (fs_write freshFS 0 zeroBlock 1
      ((POINTERS_PER_INODE + POINTERS_PER_BLOCK) * BLOCK_SIZE)).2.free_blocks
      = freshFS.free_blocks ∧
    (fs_write freshFS 0 zeroBlock 1
      ((POINTERS_PER_INODE + POINTERS_PER_BLOCK) * BLOCK_SIZE)).2.disk.content
      = freshFS.disk.content ∧
    (fs_write freshFS 0 zeroBlock 1
      ((POINTERS_PER_INODE + POINTERS_PER_BLOCK) * BLOCK_SIZE)).2.disk.writes
      = freshFS.disk.writes :=
  write_offset_beyond_max_rejected freshFS 0 zeroBlock 1
    ((POINTERS_PER_INODE + POINTERS_PER_BLOCK) * BLOCK_SIZE)
    (by decide) (by decide) (by decide) (by decide) (by decide)

/-- C10.  On a mounted filesystem, `fs_remove` of an inode number whose
stored inode has `valid ≠ 1` returns `false` and leaves the free-block
bitmap, the disk contents and the write counter untouched: the failure
path performs only the initial inode-table `disk_read`. -/
theorem remove_invalid_inode_changes_nothing (fs : FileSystem) (n : Nat)
    (hfd : fs.disk.fdOpen = true)
    (hblk : n / INODES_PER_BLOCK + 1 < fs.disk.blocks)
    (hinv : (tableInode fs n).valid ≠ 1) :
    (fs_remove fs n).1 = false ∧
    (fs_remove fs n).2.free_blocks = fs.free_blocks ∧
    (fs_remove fs n).2.disk.content = fs.disk.content ∧
    (fs_remove fs n).2.disk.writes = fs.disk.writes := by
  unfold tableInode at hinv
  have hvv : is_valid_Inode
      (getInode (fs.disk.content (n / INODES_PER_BLOCK + 1)) (n % INODES_PER_BLOCK))
      = false := (is_valid_Inode_eq_false _).mpr hinv
  refine ⟨?_, ?_, ?_, ?_⟩ <;>
    simp only [fs_remove, fsDiskRead, disk_read, disk_sanity_check, hfd, Bool.true_and,
      decide_eq_true_eq, hblk, ite_true, hvv, eq_self_iff_true]

/-- Witness for C10: removing the invalid inode 0 of `emptyTableFS`
fails and changes nothing. -/
theorem remove_invalid_inode_changes_nothing_witness :
    (fs_remove emptyTableFS 0).1 = false ∧
    (fs_remove emptyTableFS 0).2.free_blocks = emptyTableFS.free_blocks ∧
    (fs_remove emptyTableFS 0).2.disk.content = emptyTableFS.disk.content ∧
    (fs_remove emptyTableFS 0).2.disk.writes = emptyTableFS.disk.writes :=
  remove_invalid_inode_changes_nothing emptyTableFS 0
    (by decide) (by decide) (by decide)

end SimpleFS
